import Mathlib

/-! Verification of the ID-token handling of the `openid` service.

Shallow embedding of `model/jwt.go`, `provider/google.go` and
`provider/salesforce.go`.

* Go `string` and `[]byte` are byte sequences: `List UInt8`.
* A Go call either returns a value, returns a non-nil `error`, or panics:
  the three constructors of `Result`.
* `map[string]interface{}` is an association list; reading a `nil` map
  behaves like reading an empty one, so `nil` is the empty list.
* The standard-library functions the program calls (`strings.Split`,
  `base64.RawURLEncoding.DecodeString`, `json.Decoder.Decode`,
  `big.Int.SetBytes`, `big.Int.Uint64`) are modelled after their Go
  implementation; the network and `crypto/rsa` are inputs (`World`).
-/

set_option autoImplicit false

namespace OpenID

/-! ## Go values -/

/-- A Go `string` (or `[]byte`): a sequence of bytes. -/
abbrev GoString := List UInt8

/-- The UTF-8 bytes of a string literal of the source. -/
def bytes (s : String) : GoString := s.toUTF8.data.toList

/-- Reasons for which the Go code panics. -/
inductive GoPanic where
  /-- Slice index out of range: index and length. -/
  | indexOutOfRange (index len : Nat)
  /-- Failed type assertion `x.(T)` on an interface value. -/
  | typeAssertion
  /-- Nil pointer dereference. -/
  | nilDereference
  deriving DecidableEq, Repr

/-- Errors of `json.Decoder.Decode`. -/
inductive JsonError where
  /-- `io.EOF`: no value in the input. -/
  | eof
  /-- `io.ErrUnexpectedEOF`: the input ends inside a value. -/
  | unexpectedEOF
  /-- `*json.SyntaxError`. -/
  | syntaxError
  /-- `*json.UnmarshalTypeError`: the JSON value does not fit the Go type. -/
  | unmarshalType
  deriving DecidableEq, Repr

/-- Go `error` values of the program; `fmt.Errorf` calls keep their
arguments instead of the formatted text. -/
inductive GoError where
  /-- `base64.CorruptInputError` at an input offset. -/
  | corruptInput (pos : Nat)
  /-- Error of the JSON decoder. -/
  | json (e : JsonError)
  /-- Error returned by `http.Client.Do`. -/
  | transport
  /-- Error returned by `rsa.VerifyPKCS1v15`. -/
  | verification
  /-- `fmt.Errorf("invalid aud: %v", aud)`. -/
  | invalidAud (aud : GoString)
  /-- `fmt.Errorf("invalid iss: %v", iss)`. -/
  | invalidIss (iss : GoString)
  /-- `fmt.Errorf("invalid exp: %v", exp)`. -/
  | invalidExp (exp : ℚ)
  /-- `fmt.Errorf("failed to request token: %v", token)` of the Salesforce
  token request. -/
  | tokenStatus
  /-- `fmt.Errorf(label + ": %v", cause)`. -/
  | context (label : String) (cause : GoError)
  deriving DecidableEq, Repr

/-- Outcome of a Go call that returns `(T, error)` and may panic. -/
inductive Result (α : Type) where
  | ok (a : α)
  | error (e : GoError)
  | panic (p : GoPanic)
  deriving DecidableEq, Repr

namespace Result

/-- The call returned normally with a nil error. -/
def isOk {α : Type} : Result α → Bool
  | ok _ => true
  | _ => false

/-- The call returned a non-nil error. -/
def isError {α : Type} : Result α → Bool
  | error _ => true
  | _ => false

/-- The call panicked. -/
def isPanic {α : Type} : Result α → Bool
  | panic _ => true
  | _ => false

end Result

/-! ## `strings.Split` and slice indexing -/

/-- `strings.Split(s, sep)` for a one-byte separator: the substrings between
the separators, `n + 1` of them when `sep` occurs `n` times. -/
def Split (sep : UInt8) : GoString → List GoString
  | [] => [[]]
  | c :: cs =>
    if c = sep then [] :: Split sep cs
    else
      match Split sep cs with
      | [] => [[c]]
      | x :: xs => (c :: x) :: xs

/-- Slice indexing `data[i]`: panics when `i` is out of range. -/
def index {α : Type} (data : List α) (i : Nat) : Result α :=
  match data.get? i with
  | some x => .ok x
  | none => .panic (.indexOutOfRange i data.length)

/-! ## `base64.RawURLEncoding.DecodeString` -/

/-- The decode map of the URL alphabet: `A-Z a-z 0-9 - _`. -/
def decodeMap (c : UInt8) : Option Nat :=
  let n := c.toNat
  if 65 ≤ n ∧ n ≤ 90 then some (n - 65)
  else if 97 ≤ n ∧ n ≤ 122 then some (n - 97 + 26)
  else if 48 ≤ n ∧ n ≤ 57 then some (n - 48 + 52)
  else if n = 45 then some 62
  else if n = 95 then some 63
  else none

/-- The bytes of a final quantum of `dbuf.length` sextets (non-strict mode:
the unused low bits are dropped without a check). -/
def quantumBytes (dbuf : List Nat) : GoString :=
  match dbuf with
  | [a, b] => [UInt8.ofNat ((a * 64 + b) / 16)]
  | [a, b, c] =>
    let v := (a * 64 + b) * 64 + c
    [UInt8.ofNat (v / 1024), UInt8.ofNat (v / 4 % 256)]
  | [a, b, c, d] =>
    let v := ((a * 64 + b) * 64 + c) * 64 + d
    [UInt8.ofNat (v / 65536), UInt8.ofNat (v / 256 % 256), UInt8.ofNat (v % 256)]
  | _ => []

/-- The loop of `Encoding.Decode` over `decodeQuantum`: `si` is the input
offset, `dbuf` the sextets of the current quantum. Carriage returns and line
feeds are skipped, every other byte outside the alphabet is corrupt (the
encoding has no padding character), and a final quantum of one sextet is
corrupt. -/
def decodeLoop : GoString → Nat → List Nat → Except Nat GoString
  | [], si, dbuf =>
    match dbuf with
    | [] => .ok []
    | [_] => .error (si - 1)
    | _ => .ok (quantumBytes dbuf)
  | c :: cs, si, dbuf =>
    match decodeMap c with
    | some v =>
      if dbuf.length = 3 then
        match decodeLoop cs (si + 1) [] with
        | .ok out => .ok (quantumBytes (dbuf ++ [v]) ++ out)
        | .error e => .error e
      else decodeLoop cs (si + 1) (dbuf ++ [v])
    | none =>
      if c = 10 ∨ c = 13 then decodeLoop cs (si + 1) dbuf
      else .error si

/-- `base64.RawURLEncoding.DecodeString`. -/
def DecodeString (s : GoString) : Except Nat GoString :=
  decodeLoop s 0 []

/-! ## JSON values -/

/-- A Go `interface{}` value produced by `encoding/json`: `nil`, `bool`,
`float64` (a finite float, kept as the rational it denotes), `string`,
`[]interface{}` or `map[string]interface{}`. -/
inductive GoValue where
  | null
  | bool (b : Bool)
  | float64 (f : ℚ)
  | string (s : GoString)
  | slice (xs : List GoValue)
  | map (m : List (GoString × GoValue))

/-- A Go `map[string]interface{}`; the nil map is the empty list. -/
abbrev GoMap := List (GoString × GoValue)

/-- Map read `m[k]`: `none` stands for the nil interface returned for a
missing key. -/
def GoMap.get : GoMap → GoString → Option GoValue
  | [], _ => none
  | (k, v) :: m, key => if k = key then some v else GoMap.get m key

/-- Map write `m[k] = v`. -/
def GoMap.set : GoMap → GoString → GoValue → GoMap
  | [], key, v => [(key, v)]
  | (k, w) :: m, key, v => if k = key then (k, v) :: m else (k, w) :: GoMap.set m key v

/-- Type assertion `x.(string)` on the result of a map read. -/
def assertString : Option GoValue → Result GoString
  | some (.string s) => .ok s
  | _ => .panic .typeAssertion

/-- Type assertion `x.(float64)`. -/
def assertFloat64 : Option GoValue → Result ℚ
  | some (.float64 f) => .ok f
  | _ => .panic .typeAssertion

/-- Type assertion `x.([]interface{})`. -/
def assertSlice : Option GoValue → Result (List GoValue)
  | some (.slice xs) => .ok xs
  | _ => .panic .typeAssertion

/-- Type assertion `x.(map[string]interface{})`. -/
def assertMap : Option GoValue → Result GoMap
  | some (.map m) => .ok m
  | _ => .panic .typeAssertion

/-! ## `strconv.ParseFloat` and integer to float conversion -/

/-- Greatest `e` with `2 ^ e ≤ q`, for `0 < q`. -/
def floorLog2 (q : ℚ) : Int :=
  let e0 : Int := (Nat.log2 q.num.natAbs : Int) - (Nat.log2 q.den : Int)
  if (2 : ℚ) ^ e0 ≤ q then e0 else e0 - 1

/-- Round to the nearest integer, ties to even. -/
def roundHalfEven (x : ℚ) : Int :=
  let f := ⌊x⌋
  let r := x - f
  if r < 1 / 2 then f
  else if 1 / 2 < r then f + 1
  else if f % 2 = 0 then f else f + 1

/-- Round a real to the nearest binary64 value (53-bit significand,
exponents from -1022, ties to even); `none` when the result overflows. -/
def roundFloat64 (q : ℚ) : Option ℚ :=
  if q = 0 then some 0
  else
    let a := |q|
    let e := max (floorLog2 a) (-1022)
    let ulp : ℚ := 2 ^ (e - 52)
    let r := (roundHalfEven (a / ulp) : ℚ) * ulp
    if (2 : ℚ) ^ (1024 : Int) ≤ r then none
    else some (if q < 0 then -r else r)

/-- The conversion `float64(n)` of an `int64`: exact up to `2 ^ 53`, rounded
to 53 significant bits (ties to even) above. -/
def float64OfInt64 (n : Int) : ℚ :=
  if n.natAbs ≤ 2 ^ 53 then (n : ℚ)
  else
    let a := n.natAbs
    let k := Nat.log2 a - 52
    let q := a / 2 ^ k
    let r := a % 2 ^ k
    let m := if 2 ^ (k - 1) < r ∨ (r = 2 ^ (k - 1) ∧ q % 2 = 1) then q + 1 else q
    if n < 0 then -((m * 2 ^ k : Nat) : ℚ) else ((m * 2 ^ k : Nat) : ℚ)

/-- Accumulator for reading a JSON number literal. -/
structure NumAcc where
  neg : Bool := false
  mant : Nat := 0
  scale : Nat := 0
  expNeg : Bool := false
  exp : Nat := 0
  phase : Nat := 0

/-- Read one byte of a number literal: phase 0 is the integer part, 1 the
fraction, 2 the exponent. -/
def numStep (a : NumAcc) (c : UInt8) : NumAcc :=
  if c = 45 then (if a.phase = 2 then { a with expNeg := true } else { a with neg := true })
  else if c = 43 then a
  else if c = 46 then { a with phase := 1 }
  else if c = 101 ∨ c = 69 then { a with phase := 2 }
  else
    let d := c.toNat - 48
    if a.phase = 0 then { a with mant := a.mant * 10 + d }
    else if a.phase = 1 then { a with mant := a.mant * 10 + d, scale := a.scale + 1 }
    else { a with exp := a.exp * 10 + d }

/-- The exact value of a JSON number literal. -/
def numberValue (text : GoString) : ℚ :=
  let a := text.foldl numStep {}
  let e : Int := (if a.expNeg then -(a.exp : Int) else (a.exp : Int)) - (a.scale : Int)
  let v : ℚ := (a.mant : ℚ) * (10 : ℚ) ^ e
  if a.neg then -v else v

/-- `strconv.ParseFloat(text, 64)` on a JSON number literal, as used by the
decoder: `none` is the range error. -/
def convertNumber (text : GoString) : Option ℚ :=
  roundFloat64 (numberValue text)

/-! ## `encoding/json`: the scanner -/

/-- Result of scanning one token: the number of bytes it takes, a byte that
cannot continue it, or the end of the input inside it. -/
inductive Scan where
  | done (len : Nat)
  | bad
  | truncated
  deriving DecidableEq, Repr

/-- One more byte consumed. -/
def Scan.succ : Scan → Scan
  | .done n => .done (n + 1)
  | s => s

/-- The JSON white space bytes: space, tab, carriage return, line feed. -/
def isSpace (c : UInt8) : Bool :=
  c = 32 || c = 9 || c = 13 || c = 10

/-- Decimal digit. -/
def isDigit (c : UInt8) : Bool :=
  48 ≤ c.toNat && c.toNat ≤ 57

/-- Value of a hexadecimal digit. -/
def hexValue (c : UInt8) : Option Nat :=
  let n := c.toNat
  if 48 ≤ n ∧ n ≤ 57 then some (n - 48)
  else if 97 ≤ n ∧ n ≤ 102 then some (n - 97 + 10)
  else if 65 ≤ n ∧ n ≤ 70 then some (n - 65 + 10)
  else none

/-- Scanner states inside a string literal (`stateInString`,
`stateInStringEsc`, `stateInStringEscU` and its three successors). -/
inductive StrState where
  | plain
  | esc
  | hex (more : Nat)

/-- Scan the rest of a string literal, after the opening quote, up to and
including the closing quote. -/
def scanString : StrState → GoString → Scan
  | _, [] => .truncated
  | .plain, c :: cs =>
    if c = 34 then .done 1
    else if c = 92 then (scanString .esc cs).succ
    else if c.toNat < 32 then .bad
    else (scanString .plain cs).succ
  | .esc, c :: cs =>
    if c = 98 ∨ c = 102 ∨ c = 110 ∨ c = 114 ∨ c = 116 ∨ c = 92 ∨ c = 47 ∨ c = 34 then
      (scanString .plain cs).succ
    else if c = 117 then (scanString (.hex 3) cs).succ
    else .bad
  | .hex more, c :: cs =>
    match hexValue c with
    | none => .bad
    | some _ =>
      match more with
      | 0 => (scanString .plain cs).succ
      | m + 1 => (scanString (.hex m) cs).succ

/-- Scanner states inside a number literal (`stateNeg`, `state0`, `state1`,
`stateDot`, `stateDot0`, `stateE`, `stateESign`, `stateE0`). -/
inductive NumState where
  | neg
  | zero
  | int
  | dot
  | frac
  | e
  | esign
  | exp
  deriving DecidableEq

/-- Scan the rest of a number literal; it ends before the first byte that
cannot continue it. -/
def scanNumber : NumState → GoString → Scan
  | st, [] =>
    if st = .zero ∨ st = .int ∨ st = .frac ∨ st = .exp then .done 0 else .truncated
  | .neg, c :: cs =>
    if c = 48 then (scanNumber .zero cs).succ
    else if isDigit c then (scanNumber .int cs).succ
    else .bad
  | .int, c :: cs =>
    if isDigit c then (scanNumber .int cs).succ
    else if c = 46 then (scanNumber .dot cs).succ
    else if c = 101 ∨ c = 69 then (scanNumber .e cs).succ
    else .done 0
  | .zero, c :: cs =>
    if c = 46 then (scanNumber .dot cs).succ
    else if c = 101 ∨ c = 69 then (scanNumber .e cs).succ
    else .done 0
  | .dot, c :: cs =>
    if isDigit c then (scanNumber .frac cs).succ else .bad
  | .frac, c :: cs =>
    if isDigit c then (scanNumber .frac cs).succ
    else if c = 101 ∨ c = 69 then (scanNumber .e cs).succ
    else .done 0
  | .e, c :: cs =>
    if c = 43 ∨ c = 45 then (scanNumber .esign cs).succ
    else if isDigit c then (scanNumber .exp cs).succ
    else .bad
  | .esign, c :: cs =>
    if isDigit c then (scanNumber .exp cs).succ else .bad
  | .exp, c :: cs =>
    if isDigit c then (scanNumber .exp cs).succ else .done 0

/-- Scan the rest of a literal name (`rue`, `alse`, `ull`). -/
def scanLiteral : GoString → GoString → Scan
  | [], _ => .done 0
  | _ :: _, [] => .truncated
  | a :: name, c :: cs => if c = a then (scanLiteral name cs).succ else .bad

/-! ## `encoding/json`: unquoting string literals -/

/-- `utf8.EncodeRune`: surrogates and values above `U+10FFFF` become
`U+FFFD`. -/
def encodeRune (r : Nat) : GoString :=
  if r < 0x80 then [UInt8.ofNat r]
  else if r < 0x800 then [UInt8.ofNat (0xC0 + r / 64), UInt8.ofNat (0x80 + r % 64)]
  else if (0xD800 ≤ r ∧ r < 0xE000) ∨ 0x10FFFF < r then [0xEF, 0xBF, 0xBD]
  else if r < 0x10000 then
    [UInt8.ofNat (0xE0 + r / 4096), UInt8.ofNat (0x80 + r / 64 % 64), UInt8.ofNat (0x80 + r % 64)]
  else
    [UInt8.ofNat (0xF0 + r / 262144), UInt8.ofNat (0x80 + r / 4096 % 64),
      UInt8.ofNat (0x80 + r / 64 % 64), UInt8.ofNat (0x80 + r % 64)]

/-- Continuation byte of a UTF-8 encoding. -/
def isCont (c : UInt8) : Bool :=
  0x80 ≤ c.toNat && c.toNat ≤ 0xBF

/-- Length of the valid UTF-8 encoding at the head of the input with first
byte `c ≥ 0x80`, following the `first` and `acceptRanges` tables of
`unicode/utf8`; `none` when `utf8.DecodeRune` reports `RuneError` of width
one. -/
def runeLen (c : UInt8) (cs : GoString) : Option Nat :=
  let x := c.toNat
  let size : Nat :=
    if 0xC2 ≤ x ∧ x ≤ 0xDF then 2
    else if 0xE0 ≤ x ∧ x ≤ 0xEF then 3
    else if 0xF0 ≤ x ∧ x ≤ 0xF4 then 4
    else 0
  let lo : Nat := if x = 0xE0 then 0xA0 else if x = 0xF0 then 0x90 else 0x80
  let hi : Nat := if x = 0xED then 0x9F else if x = 0xF4 then 0x8F else 0xBF
  if size = 0 then none
  else
    match cs with
    | [] => none
    | b1 :: r1 =>
      if b1.toNat < lo ∨ hi < b1.toNat then none
      else if size = 2 then some 2
      else
        match r1 with
        | [] => none
        | b2 :: r2 =>
          if !isCont b2 then none
          else if size = 3 then some 3
          else
            match r2 with
            | [] => none
            | b3 :: _ => if !isCont b3 then none else some 4

/-- The rune of `\uXXXX` at the head of the input (`getu4`). -/
def getu4 (s : GoString) : Option Nat :=
  match s with
  | 92 :: 117 :: a :: b :: c :: d :: _ =>
    match hexValue a, hexValue b, hexValue c, hexValue d with
    | some a, some b, some c, some d => some (((a * 16 + b) * 16 + c) * 16 + d)
    | _, _, _, _ => none
  | _ => none

/-- The byte of a one-letter escape. -/
def escapeByte (c : UInt8) : UInt8 :=
  if c = 98 then 8
  else if c = 102 then 12
  else if c = 110 then 10
  else if c = 114 then 13
  else if c = 116 then 9
  else c

/-- The function `unquoteBytes` on the content of a scanned string literal:
escapes are replaced, a `\u` surrogate pair becomes one rune, a lone surrogate
and every byte that does not start a valid UTF-8 encoding become `U+FFFD`.
The first argument counts bytes of the input already accounted for. The
branches returning `[]` after a backslash are not reached on scanned
content. -/
def unquote : Nat → GoString → GoString
  | _, [] => []
  | skip + 1, _ :: cs => unquote skip cs
  | 0, c :: cs =>
    if c = 92 then
      match cs with
      | [] => []
      | e :: _ =>
        if e = 117 then
          match getu4 (c :: cs) with
          | none => []
          | some rr =>
            if 0xD800 ≤ rr ∧ rr < 0xE000 then
              match getu4 (cs.drop 5) with
              | some rr1 =>
                if rr < 0xDC00 ∧ 0xDC00 ≤ rr1 ∧ rr1 < 0xE000 then
                  encodeRune (0x10000 + (rr - 0xD800) * 0x400 + (rr1 - 0xDC00)) ++ unquote 11 cs
                else [0xEF, 0xBF, 0xBD] ++ unquote 5 cs
              | none => [0xEF, 0xBF, 0xBD] ++ unquote 5 cs
            else encodeRune rr ++ unquote 5 cs
        else escapeByte e :: unquote 1 cs
    else if c.toNat < 0x80 then c :: unquote 0 cs
    else
      match runeLen c cs with
      | some n => c :: cs.take (n - 1) ++ unquote (n - 1) cs
      | none => [0xEF, 0xBF, 0xBD] ++ unquote 0 cs

/-! ## `encoding/json`: tokens -/

/-- Tokens of a JSON text. `bad` is a byte the scanner rejects, `truncated`
the end of the input inside a token. A number carries its `float64` value,
`none` when it is out of range. -/
inductive Token where
  | beginObject
  | endObject
  | beginArray
  | endArray
  | colon
  | comma
  | string (s : GoString)
  | number (f : Option ℚ)
  | true
  | false
  | null
  | bad
  | truncated
  deriving DecidableEq, Repr

/-- Split a JSON text into tokens, stopping at the first byte the scanner
rejects. The first argument counts bytes already taken by the last token. -/
def tokenize : Nat → GoString → List Token
  | _, [] => []
  | skip + 1, _ :: cs => tokenize skip cs
  | 0, c :: cs =>
    if isSpace c then tokenize 0 cs
    else if c = 123 then .beginObject :: tokenize 0 cs
    else if c = 125 then .endObject :: tokenize 0 cs
    else if c = 91 then .beginArray :: tokenize 0 cs
    else if c = 93 then .endArray :: tokenize 0 cs
    else if c = 58 then .colon :: tokenize 0 cs
    else if c = 44 then .comma :: tokenize 0 cs
    else if c = 34 then
      match scanString .plain cs with
      | .done n => .string (unquote 0 (cs.take (n - 1))) :: tokenize n cs
      | .bad => [.bad]
      | .truncated => [.truncated]
    else if c = 45 ∨ isDigit c then
      match scanNumber (if c = 45 then .neg else if c = 48 then .zero else .int) cs with
      | .done n => .number (convertNumber (c :: cs.take n)) :: tokenize n cs
      | .bad => [.bad]
      | .truncated => [.truncated]
    else if c = 116 then
      match scanLiteral (bytes "rue") cs with
      | .done n => .true :: tokenize n cs
      | .bad => [.bad]
      | .truncated => [.truncated]
    else if c = 102 then
      match scanLiteral (bytes "alse") cs with
      | .done n => .false :: tokenize n cs
      | .bad => [.bad]
      | .truncated => [.truncated]
    else if c = 110 then
      match scanLiteral (bytes "ull") cs with
      | .done n => .null :: tokenize n cs
      | .bad => [.bad]
      | .truncated => [.truncated]
    else [.bad]

/-! ## `encoding/json`: building the first value -/

/-- An open container: the elements read so far, and for an object the key
waiting for its value. -/
inductive Frame where
  | array (acc : List GoValue)
  | object (acc : GoMap) (key : Option GoString)

/-- What the scanner accepts next: a value (`stateBeginValue`), a value or
`]` (`stateBeginValueOrEmpty`), a key or the closing brace
(`stateBeginStringOrEmpty`), a key (`stateBeginString`), the colon after a
key, or what follows a value inside a container (`stateEndValue`). -/
inductive Expect where
  | value
  | valueOrEnd
  | keyOrEnd
  | key
  | colon
  | afterValue
  deriving DecidableEq

/-- State of the decoder between two tokens; `saved` records a number that
was out of range (`decodeState.saveError`). -/
structure Parser where
  stack : List Frame
  expect : Expect
  saved : Bool

/-- The nesting limit of the scanner (`maxNestingDepth`). -/
def maxNestingDepth : Nat := 10000

/-- A value is complete: it is the result when no container is open, else it
is stored in the innermost container. -/
def Parser.produce (p : Parser) (v : GoValue) : Except JsonError (GoValue × Bool ⊕ Parser) :=
  match p.stack with
  | [] => .ok (.inl (v, p.saved))
  | .array acc :: rest =>
    .ok (.inr { p with stack := .array (acc ++ [v]) :: rest, expect := .afterValue })
  | .object acc (some k) :: rest =>
    .ok (.inr { p with stack := .object (acc.set k v) none :: rest, expect := .afterValue })
  | .object _ none :: _ => .error .syntaxError

/-- Open a container (`pushParseState`). -/
def Parser.push (p : Parser) (f : Frame) (e : Expect) : Except JsonError (GoValue × Bool ⊕ Parser) :=
  if p.stack.length + 1 ≤ maxNestingDepth then
    .ok (.inr { p with stack := f :: p.stack, expect := e })
  else .error .syntaxError

/-- The token starts a value. -/
def Parser.beginValue (p : Parser) (t : Token) : Except JsonError (GoValue × Bool ⊕ Parser) :=
  match t with
  | .beginObject => p.push (.object [] none) .keyOrEnd
  | .beginArray => p.push (.array []) .valueOrEnd
  | .string s => p.produce (.string s)
  | .number (some f) => p.produce (.float64 f)
  | .number none => Parser.produce { p with saved := true } .null
  | .true => p.produce (.bool true)
  | .false => p.produce (.bool false)
  | .null => p.produce .null
  | .truncated => .error .unexpectedEOF
  | _ => .error .syntaxError

/-- The token is a key of the innermost object. -/
def Parser.beginKey (p : Parser) (t : Token) : Except JsonError (GoValue × Bool ⊕ Parser) :=
  match t, p.stack with
  | .string s, .object acc _ :: rest =>
    .ok (.inr { p with stack := .object acc (some s) :: rest, expect := .colon })
  | .truncated, _ => .error .unexpectedEOF
  | _, _ => .error .syntaxError

/-- The token closes the innermost container. -/
def Parser.close (p : Parser) (t : Token) : Except JsonError (GoValue × Bool ⊕ Parser) :=
  match t, p.stack with
  | .endArray, .array acc :: rest => Parser.produce { p with stack := rest } (.slice acc)
  | .endObject, .object acc none :: rest => Parser.produce { p with stack := rest } (.map acc)
  | _, _ => .error .syntaxError

/-- The token follows a key: it has to be the colon. -/
def Parser.afterKey (p : Parser) (t : Token) : Except JsonError (GoValue × Bool ⊕ Parser) :=
  match t with
  | .colon => .ok (.inr { p with expect := .value })
  | .truncated => .error .unexpectedEOF
  | _ => .error .syntaxError

/-- The token follows a value inside a container: a comma goes on with the
next element or key, a closing bracket ends the container. -/
def Parser.afterValue (p : Parser) (t : Token) : Except JsonError (GoValue × Bool ⊕ Parser) :=
  match t, p.stack with
  | .comma, .array _ :: _ => .ok (.inr { p with expect := .value })
  | .comma, .object _ _ :: _ => .ok (.inr { p with expect := .key })
  | .endArray, _ => p.close t
  | .endObject, _ => p.close t
  | .truncated, _ => .error .unexpectedEOF
  | _, _ => .error .syntaxError

/-- One token: the value is complete (left) or decoding goes on (right). -/
def Parser.step (p : Parser) (t : Token) : Except JsonError (GoValue × Bool ⊕ Parser) :=
  match p.expect with
  | .value => p.beginValue t
  | .valueOrEnd => if t = .endArray then p.close t else p.beginValue t
  | .keyOrEnd => if t = .endObject then p.close t else p.beginKey t
  | .key => p.beginKey t
  | .colon => p.afterKey t
  | .afterValue => p.afterValue t

/-- Run the decoder over the tokens until the first value is complete; what
follows it is not looked at. -/
def Parser.run : Parser → List Token → Except JsonError (GoValue × Bool)
  | _, [] => .error .unexpectedEOF
  | p, t :: ts =>
    match p.step t with
    | .error e => .error e
    | .ok (.inl r) => .ok r
    | .ok (.inr q) => Parser.run q ts

/-- The first JSON value of a byte stream, as `Decoder.Decode` reads it into
an `interface{}`: `io.EOF` when there is only white space. The flag tells
that a number of the value was out of range. -/
def firstValue (data : GoString) : Except JsonError (GoValue × Bool) :=
  match tokenize 0 data with
  | [] => .error .eof
  | ts => Parser.run { stack := [], expect := .value, saved := false } ts

/-- `json.NewDecoder(r).Decode(&m)` for `m` a nil `map[string]interface{}`:
the first JSON value of the stream is read; an object fills the map, `null`
leaves it nil, every other value is an `UnmarshalTypeError`, and so is a
number out of the range of `float64`. Bytes after the first value stay unread
in the decoder. -/
def decodeMap? (data : GoString) : Except JsonError GoMap :=
  match firstValue data with
  | .error e => .error e
  | .ok (.map m, false) => .ok m
  | .ok (.null, false) => .ok []
  | .ok (_, _) => .error .unmarshalType

/-! ## `model/jwt.go`: decoding -/

/-- The struct `JWT`. -/
structure JWT where
  Header : GoMap
  Payload : GoMap
  Signature : GoString
  SignatureOrigin : GoString

/-- `DecodeJWT` decodes base64 encoded header.payload.signature. -/
def DecodeJWT (idToken : GoString) : Result JWT :=
  let data := Split 46 idToken
  match index data 0 with
  | .panic p => .panic p
  | .error e => .error e
  | .ok header =>
  match index data 1 with
  | .panic p => .panic p
  | .error e => .error e
  | .ok payload =>
  match index data 2 with
  | .panic p => .panic p
  | .error e => .error e
  | .ok signature =>
  match DecodeString header with
  | .error pos => .error (.context "decode header error" (.corruptInput pos))
  | .ok byteHeader =>
  match DecodeString payload with
  | .error pos => .error (.context "decode payload error" (.corruptInput pos))
  | .ok bytePayload =>
  match DecodeString signature with
  | .error pos => .error (.context "decode signature error" (.corruptInput pos))
  | .ok byteSignature =>
  match decodeMap? byteHeader with
  | .error e => .error (.context "decode byte header error" (.json e))
  | .ok hdr =>
  match decodeMap? bytePayload with
  | .error e => .error (.context "decode byte payload error" (.json e))
  | .ok pl =>
    .ok { Header := hdr, Payload := pl, Signature := byteSignature,
          SignatureOrigin := header ++ [46] ++ payload }

/-! ## `model/jwt.go`: verification -/

/-- An `http.Response`, as far as the program reads it. -/
structure HttpResponse where
  StatusCode : Nat
  Body : GoString

/-- The struct `rsa.PublicKey`: `N` is a `*big.Int` (`none` is the nil
pointer of the zero value), `E` an `int`. -/
structure PublicKey where
  N : Option Nat
  E : Int
  deriving DecidableEq, Repr

/-- What the program takes from outside during one callback: the responses to
its three outbound requests (`none`: `http.Client.Do` returned an error), the
functions of `crypto` it calls, and the clock. The requests are built by
`http.NewRequest` from a constant method and URL, which does not fail. -/
structure World where
  /-- Response to the POST to the token endpoint. -/
  token : Option HttpResponse
  /-- Response to the GET of the published key set. -/
  jwks : Option HttpResponse
  /-- Response to the GET of the user-info endpoint. -/
  userInfo : Option HttpResponse
  /-- The digest `crypto.SHA256`. -/
  SHA256 : GoString → GoString
  /-- The call `rsa.VerifyPKCS1v15(pub, crypto.SHA256, hashed, sig)`: it
  returns nil or an error, and on a key without modulus it panics or returns
  an error, depending on the Go release. -/
  VerifyPKCS1v15 : PublicKey → GoString → GoString → Result Unit
  /-- The value of `time.Now().Unix()`. -/
  now : Int

/-- `new(big.Int).SetBytes(b)`: the bytes as a big-endian unsigned integer. -/
def SetBytes (b : GoString) : Nat :=
  b.foldl (fun acc x => acc * 256 + x.toNat) 0

/-- The unsigned big-endian integer value of a byte string, in the words of
the specification: byte `i` of `n` bytes has the weight `256 ^ (n - 1 - i)`. -/
def bigEndianValue : GoString → Nat
  | [] => 0
  | b :: bs => b.toNat * 256 ^ bs.length + bigEndianValue bs

/-- `x.Uint64()` of a non-negative `big.Int`: its low 64 bits. -/
def Uint64 (x : Nat) : Nat :=
  x % 2 ^ 64

/-- The conversion `int(u)` of a `uint64` to the 64-bit two's-complement
`int`. -/
def int (u : Nat) : Int :=
  if u % 2 ^ 64 < 2 ^ 63 then ((u % 2 ^ 64 : Nat) : Int) else ((u % 2 ^ 64 : Nat) : Int) - 2 ^ 64

/-- The zero value `rsa.PublicKey{}`. -/
def zeroKey : PublicKey := { N := none, E := 0 }

/-- The loop of `verifySignature` over `keyList["keys"]`: the first entry
whose `kid` equals the header's gives the public key and ends the loop; when
the loop ends without a match the key is still the zero value. -/
def selectKey (kid : GoString) : List GoValue → Result PublicKey
  | [] => .ok zeroKey
  | k :: ks =>
    match assertMap (some k) with
    | .panic p => .panic p
    | .error e => .error e
    | .ok key =>
    match assertString (key.get (bytes "kid")) with
    | .panic p => .panic p
    | .error e => .error e
    | .ok id =>
      if id = kid then
        match assertString (key.get (bytes "e")) with
        | .panic p => .panic p
        | .error e => .error e
        | .ok e =>
        match DecodeString e with
        | .error pos => .error (.corruptInput pos)
        | .ok decodedE =>
        match assertString (key.get (bytes "n")) with
        | .panic p => .panic p
        | .error e => .error e
        | .ok n =>
        match DecodeString n with
        | .error pos => .error (.corruptInput pos)
        | .ok decodedN =>
          .ok { E := int (Uint64 (SetBytes decodedE)), N := some (SetBytes decodedN) }
      else selectKey kid ks

/-- `verifySignature` verifies JWT signature. -/
def verifySignature (w : World) (j : JWT) : Result Unit :=
  match w.jwks with
  | none => .error (.context "failed to request" .transport)
  | some res =>
  match decodeMap? res.Body with
  | .error e => .error (.context "failed to decode response" (.json e))
  | .ok keyList =>
  match assertString (j.Header.get (bytes "kid")) with
  | .panic p => .panic p
  | .error e => .error e
  | .ok kid =>
  match assertSlice (keyList.get (bytes "keys")) with
  | .panic p => .panic p
  | .error e => .error e
  | .ok keys =>
  match selectKey kid keys with
  | .panic p => .panic p
  | .error e => .error e
  | .ok pubKey =>
    match w.VerifyPKCS1v15 pubKey (w.SHA256 j.SignatureOrigin) j.Signature with
    | .panic p => .panic p
    | .error e => .error (.context "failed to verify signature" e)
    | .ok _ => .ok ()

/-- `verifyAud` verifies JWT aud. -/
def verifyAud (j : JWT) (clientId : GoString) : Result Unit :=
  match assertString (j.Payload.get (bytes "aud")) with
  | .panic p => .panic p
  | .error e => .error e
  | .ok aud => if aud ≠ clientId then .error (.invalidAud aud) else .ok ()

/-- `verifyIss` verifies JWT iss. -/
def verifyIss (j : JWT) (domain : GoString) : Result Unit :=
  match assertString (j.Payload.get (bytes "iss")) with
  | .panic p => .panic p
  | .error e => .error e
  | .ok iss => if iss ≠ domain then .error (.invalidIss iss) else .ok ()

/-- `verifyExp` verifies JWT exp; `now` is `time.Now().Unix()`. -/
def verifyExp (j : JWT) (now : Int) : Result Unit :=
  match assertFloat64 (j.Payload.get (bytes "exp")) with
  | .panic p => .panic p
  | .error e => .error e
  | .ok exp => if exp < float64OfInt64 now then .error (.invalidExp exp) else .ok ()

/-- The method `Verify`: signature, aud, iss, exp, in this order. -/
def Verify (w : World) (j : JWT) (clientId : GoString) (domain : GoString) : Result Unit :=
  match verifySignature w j with
  | .panic p => .panic p
  | .error e => .error (.context "failed to verify signature" e)
  | .ok _ =>
  match verifyAud j clientId with
  | .panic p => .panic p
  | .error e => .error (.context "failed to verify aud" e)
  | .ok _ =>
  match verifyIss j domain with
  | .panic p => .panic p
  | .error e => .error (.context "failed to verify iss" e)
  | .ok _ =>
  match verifyExp j w.now with
  | .panic p => .panic p
  | .error e => .error (.context "failed to verify exp" e)
  | .ok _ => .ok ()

/-! ## `provider/google.go` and `provider/salesforce.go`: the callbacks -/

/-- The query parameters of the callback request, empty when absent. -/
structure Request where
  code : GoString
  state : GoString

/-- The outbound requests of a callback. -/
inductive Call where
  /-- POST to the token endpoint (`requestToken`). -/
  | tokenPost
  /-- GET of the key set (`verifySignature`). -/
  | jwksGet
  /-- GET of the user-info endpoint (`getUserInfo`, `GetUserInfo`). -/
  | userInfoGet
  deriving DecidableEq, Repr

/-- A response body: a fixed text, or `fmt.Sprintf("hello %s", name)` for the
value read from the payload. -/
inductive Body where
  | text (s : String)
  | hello (name : Option GoValue)

/-- How a handler ends: it writes a status and a body, or it panics. -/
inductive Outcome where
  | responded (status : Nat) (body : Body)
  | panicked (p : GoPanic)

/-- The status written by the handler, if any. -/
def Outcome.status : Outcome → Option Nat
  | .responded s _ => some s
  | .panicked _ => none

/-- A handled callback: the outbound requests issued, in order, and the way
the handler ended. -/
structure Handled where
  calls : List Call
  outcome : Outcome

/-- `http.StatusOK`. -/
def StatusOK : Nat := 200

/-- `http.StatusUnauthorized`. -/
def StatusUnauthorized : Nat := 401

/-- `http.StatusInternalServerError`. -/
def StatusInternalServerError : Nat := 500

/-- The struct `Google`, filled from the environment at start-up. -/
structure Google where
  responseType : GoString
  scope : GoString
  clientId : GoString
  clientSecret : GoString
  redirectUri : GoString
  state : GoString

/-- The struct `Salesforce`. -/
structure Salesforce where
  responseType : GoString
  clientId : GoString
  clientSecret : GoString
  redirectUri : GoString
  state : GoString
  scope : GoString

/-- The method `Google.requestToken`: the error of `client.Do` is
overwritten, so without a response `res.Body` dereferences nil. -/
def Google.requestToken (_g : Google) (w : World) (_code : GoString) : Result GoMap :=
  match w.token with
  | none => .panic .nilDereference
  | some res =>
    match decodeMap? res.Body with
    | .error e => .error (.json e)
    | .ok token => .ok token

/-- The method `Google.getUserInfo`. -/
def Google.getUserInfo (_g : Google) (w : World) (_token : GoString) : Result GoMap :=
  match w.userInfo with
  | none => .error .transport
  | some res =>
    match decodeMap? res.Body with
    | .error e => .error (.json e)
    | .ok data => .ok data

/-- The method `Google.Callback`. The environment variable
`GOOGLE_CLIENT_ID` read here is the one `clientId` was filled from. -/
def Google.Callback (g : Google) (w : World) (r : Request) : Handled :=
  if r.state ≠ g.state then
    ⟨[], .responded StatusUnauthorized (.text "invalid state")⟩
  else
    match g.requestToken w r.code with
    | .panic p => ⟨[.tokenPost], .panicked p⟩
    | .error _ => ⟨[.tokenPost], .responded StatusInternalServerError (.text "failed to request token")⟩
    | .ok token =>
    match assertString (token.get (bytes "id_token")) with
    | .panic p => ⟨[.tokenPost], .panicked p⟩
    | .error _ => ⟨[.tokenPost], .panicked .typeAssertion⟩
    | .ok idToken =>
    match DecodeJWT idToken with
    | .panic p => ⟨[.tokenPost], .panicked p⟩
    | .error _ => ⟨[.tokenPost], .responded StatusInternalServerError (.text "failed to decode jwt")⟩
    | .ok jwt =>
    match Verify w jwt g.clientId (bytes "https://accounts.google.com") with
    | .panic p => ⟨[.tokenPost, .jwksGet], .panicked p⟩
    | _ =>
    match assertString (token.get (bytes "access_token")) with
    | .panic p => ⟨[.tokenPost, .jwksGet], .panicked p⟩
    | .error _ => ⟨[.tokenPost, .jwksGet], .panicked .typeAssertion⟩
    | .ok accessToken =>
    match g.getUserInfo w accessToken with
    | .panic p => ⟨[.tokenPost, .jwksGet, .userInfoGet], .panicked p⟩
    | .error _ =>
      ⟨[.tokenPost, .jwksGet, .userInfoGet],
        .responded StatusInternalServerError (.text "failed to get user info")⟩
    | .ok _ =>
      ⟨[.tokenPost, .jwksGet, .userInfoGet], .responded StatusOK (.text "success to get user info")⟩

/-- The method `Salesforce.requestToken`. -/
def Salesforce.requestToken (_s : Salesforce) (w : World) (_code : GoString) : Result GoMap :=
  match w.token with
  | none => .error .transport
  | some resp =>
    match decodeMap? resp.Body with
    | .error e => .error (.json e)
    | .ok token => if resp.StatusCode ≠ StatusOK then .error .tokenStatus else .ok token

/-- The method `Salesforce.GetUserInfo`. -/
def Salesforce.GetUserInfo (_s : Salesforce) (w : World) (_token : GoString) : Result GoMap :=
  match w.userInfo with
  | none => .error .transport
  | some resp =>
    match decodeMap? resp.Body with
    | .error e => .error (.json e)
    | .ok data => .ok data

/-- The method `Salesforce.Callback`: the call of `Verify` is commented out
in the source, and the error of `GetUserInfo` is not looked at. -/
def Salesforce.Callback (s : Salesforce) (w : World) (r : Request) : Handled :=
  if r.state ≠ s.state then
    ⟨[], .responded StatusUnauthorized (.text "invalid state")⟩
  else
    match s.requestToken w r.code with
    | .panic p => ⟨[.tokenPost], .panicked p⟩
    | .error _ => ⟨[.tokenPost], .responded StatusInternalServerError (.text "failed to request token")⟩
    | .ok token =>
    match assertString (token.get (bytes "id_token")) with
    | .panic p => ⟨[.tokenPost], .panicked p⟩
    | .error _ => ⟨[.tokenPost], .panicked .typeAssertion⟩
    | .ok idToken =>
    match DecodeJWT idToken with
    | .panic p => ⟨[.tokenPost], .panicked p⟩
    | .error _ => ⟨[.tokenPost], .responded StatusInternalServerError (.text "failed to decode jwt")⟩
    | .ok jwt =>
    match assertString (token.get (bytes "access_token")) with
    | .panic p => ⟨[.tokenPost], .panicked p⟩
    | .error _ => ⟨[.tokenPost], .panicked .typeAssertion⟩
    | .ok accessToken =>
    match s.GetUserInfo w accessToken with
    | .panic p => ⟨[.tokenPost, .userInfoGet], .panicked p⟩
    | _ => ⟨[.tokenPost, .userInfoGet], .responded StatusOK (.hello (jwt.Payload.get (bytes "name")))⟩

/-- A world without a key-set response, in which every signature check fails
at the request. -/
def worldNoKeys : World :=
  { token := none, jwks := none, userInfo := none, SHA256 := fun x => x,
    VerifyPKCS1v15 := fun _ _ _ => .error .verification, now := 2000000000 }

/-- A world whose RSA check accepts, serving an empty key set. -/
def worldAccepting : World :=
  { token := none, jwks := some ⟨200, bytes "\x7b\"keys\":[]\x7d"⟩, userInfo := none,
    SHA256 := fun x => x, VerifyPKCS1v15 := fun _ _ _ => .ok (), now := 2000000000 }

/-- A token with key id `k`, audience `c`, issuer `i`, and no `exp`. -/
def tokenNoExp : JWT :=
  ⟨[(bytes "kid", .string (bytes "k"))],
    [(bytes "aud", .string (bytes "c")), (bytes "iss", .string (bytes "i"))], [], []⟩

/-- A token whose payload holds only `exp`, equal to 1700000000. -/
def tokenExpOnly : JWT :=
  ⟨[], [(bytes "exp", .float64 1700000000)], [], []⟩

/-- A key-set entry with key id `k`, modulus `AQAB` and the exponent bytes
`80 00 00 00 00 00 00 00` (`gAAAAAAAAAA`). -/
def entryTopBit : GoValue :=
  .map [(bytes "kid", .string (bytes "k")), (bytes "n", .string (bytes "AQAB")),
    (bytes "e", .string (bytes "gAAAAAAAAAA"))]

/-- A key-set entry with key id `k`, modulus `AQAB` and the nine exponent
bytes `01 00 00 00 00 00 00 00 00` (`AQAAAAAAAAAA`). -/
def entryNineBytes : GoValue :=
  .map [(bytes "kid", .string (bytes "k")), (bytes "n", .string (bytes "AQAB")),
    (bytes "e", .string (bytes "AQAAAAAAAAAA"))]

/-- A key-set entry with key id `k`, modulus and exponent `AQAB` (65537). -/
def entryUsual : GoValue :=
  .map [(bytes "kid", .string (bytes "k")), (bytes "n", .string (bytes "AQAB")),
    (bytes "e", .string (bytes "AQAB"))]

/-- A world serving one key, of key id `other`, whose RSA check dereferences
the modulus, as `PublicKey.Size` does, and accepts nothing. -/
def worldOtherKey : World :=
  { token := none,
    jwks := some ⟨200, bytes
      "\x7b\"keys\":[\x7b\"kid\":\"other\",\"e\":\"AQAB\",\"n\":\"AQAB\"\x7d]\x7d"⟩,
    userInfo := none, SHA256 := fun x => x,
    VerifyPKCS1v15 := fun pub _ _ =>
      match pub.N with
      | none => .panic .nilDereference
      | some _ => .error .verification,
    now := 2000000000 }

/-- The ID token `eyJraWQiOiJrIn0.e30.AA`: header with key id `k`, empty
payload, signature byte `00`. -/
def tokenBadSignature : JWT :=
  ⟨[(bytes "kid", .string (bytes "k"))], [], [0], bytes "eyJraWQiOiJrIn0.e30"⟩

/-- A world in which the token endpoint returns the ID token
`eyJraWQiOiJrIn0.e30.AA` and the access token `t`, the key set holds the key
`k`, the RSA check rejects the signature, and the user-info endpoint answers
with an empty object. -/
def worldBadSignature : World :=
  { token := some ⟨200, bytes
      "\x7b\"id_token\":\"eyJraWQiOiJrIn0.e30.AA\",\"access_token\":\"t\"\x7d"⟩,
    jwks := some ⟨200, bytes
      "\x7b\"keys\":[\x7b\"kid\":\"k\",\"e\":\"AQAB\",\"n\":\"AQAB\"\x7d]\x7d"⟩,
    userInfo := some ⟨200, bytes "\x7b\x7d"⟩, SHA256 := fun x => x,
    VerifyPKCS1v15 := fun _ _ _ => .error .verification, now := 2000000000 }

/-- A Google provider whose configured state is `S`. -/
def googleS : Google :=
  { responseType := bytes "code", scope := bytes "openid", clientId := bytes "c",
    clientSecret := bytes "x", redirectUri := bytes "r", state := bytes "S" }

/-- A Salesforce provider whose configured state is `S`. -/
def salesforceS : Salesforce :=
  { responseType := bytes "code", clientId := bytes "c", clientSecret := bytes "x",
    redirectUri := bytes "r", state := bytes "S", scope := bytes "openid" }

/-- A callback request with code `a` and state `S`. -/
def requestS : Request :=
  { code := bytes "a", state := bytes "S" }

/-! # Theorems -/

/-! ## Splitting the token -/

/-- `strings.Split` never returns an empty slice. -/
theorem Split_ne_nil (sep : UInt8) (s : GoString) : Split sep s ≠ [] := by
  induction s with
  | nil => simp [Split]
  | cons c cs ih =>
    unfold Split
    split
    · simp
    · split <;> simp

/-- A string without the separator is its only segment. -/
theorem Split_of_not_mem (sep : UInt8) (s : GoString) (h : sep ∉ s) : Split sep s = [s] := by
  induction s with
  | nil => rfl
  | cons c cs ih =>
    have hc : c ≠ sep := fun e => h (by simp [e])
    have hcs : sep ∉ cs := fun e => h (by simp [e])
    simp [Split, hc, ih hcs]

/-- The first segment ends at the first separator. -/
theorem Split_append (sep : UInt8) (a rest : GoString) (h : sep ∉ a) :
    Split sep (a ++ sep :: rest) = a :: Split sep rest := by
  induction a with
  | nil => simp [Split]
  | cons c cs ih =>
    have hc : c ≠ sep := fun e => h (by simp [e])
    have hcs : sep ∉ cs := fun e => h (by simp [e])
    simp [Split, hc, ih hcs]

/-- A compact string of three dot-free segments splits into them. -/
theorem Split_three (h p s : GoString) (hh : (46 : UInt8) ∉ h) (hp : (46 : UInt8) ∉ p)
    (hs : (46 : UInt8) ∉ s) :
    Split 46 (h ++ [46] ++ p ++ [46] ++ s) = [h, p, s] := by
  have e : h ++ [46] ++ p ++ [46] ++ s = h ++ 46 :: (p ++ 46 :: s) := by simp
  rw [e, Split_append 46 h _ hh, Split_append 46 p _ hp, Split_of_not_mem 46 s hs]

/-- C2. On every compact string `h.p.s` whose three segments hold no dot and
on which `DecodeJWT` succeeds, the `SignatureOrigin` of the returned token is
`h + "." + p`, the bytes of the input before its last dot. -/
theorem DecodeJWT_SignatureOrigin (h p s : GoString) (jwt : JWT)
    (hh : (46 : UInt8) ∉ h) (hp : (46 : UInt8) ∉ p) (hs : (46 : UInt8) ∉ s)
    (hok : DecodeJWT (h ++ [46] ++ p ++ [46] ++ s) = .ok jwt) :
    jwt.SignatureOrigin = h ++ [46] ++ p := by
  unfold DecodeJWT at hok
  simp only [Split_three h p s hh hp hs, index, List.get?] at hok
  cases hA : DecodeString h with
  | error _ => simp [hA] at hok
  | ok bh =>
    cases hB : DecodeString p with
    | error _ => simp [hA, hB] at hok
    | ok bp =>
      cases hC : DecodeString s with
      | error _ => simp [hA, hB, hC] at hok
      | ok bs =>
        cases hD : decodeMap? bh with
        | error _ => simp [hA, hB, hC, hD] at hok
        | ok hdr =>
          cases hE : decodeMap? bp with
          | error _ => simp [hA, hB, hC, hD, hE] at hok
          | ok pl =>
            simp only [hA, hB, hC, hD, hE, Result.ok.injEq] at hok
            rw [← hok]

/-- C2, at the token `e30.e30.AA`: it decodes, and the signed bytes are
`e30.e30`. -/
theorem DecodeJWT_SignatureOrigin_witness :
    DecodeJWT (bytes "e30" ++ [46] ++ bytes "e30" ++ [46] ++ bytes "AA")
      = .ok ⟨[], [], [0], bytes "e30.e30"⟩ ∧
    (⟨[], [], [0], bytes "e30.e30"⟩ : JWT).SignatureOrigin = bytes "e30" ++ [46] ++ bytes "e30" :=
  ⟨by rfl, DecodeJWT_SignatureOrigin (bytes "e30") (bytes "e30") (bytes "AA") _
    (by decide) (by decide) (by decide) (by rfl)⟩

/-- The number of segments is one more than the number of separators. -/
theorem Split_length (sep : UInt8) (s : GoString) :
    (Split sep s).length = s.count sep + 1 := by
  induction s with
  | nil => rfl
  | cons c cs ih =>
    unfold Split
    by_cases hc : c = sep
    · subst hc; simp [ih]
    · have hne : (c == sep) = false := by simpa using hc
      simp only [hc, if_false]
      cases hS : Split sep cs with
      | nil => exact absurd hS (Split_ne_nil sep cs)
      | cons x xs =>
        rw [hS] at ih
        simp [List.count_cons, hne] at ih ⊢
        omega

/-- C1. On every input with fewer than three dot-separated segments
`DecodeJWT` does not return an error: indexing the split slice panics with an
index out of range. -/
theorem DecodeJWT_panics_below_three_segments (idToken : GoString)
    (h : (Split 46 idToken).length < 3) :
    ∃ i n, DecodeJWT idToken = .panic (.indexOutOfRange i n) := by
  unfold DecodeJWT
  cases hS : Split 46 idToken with
  | nil => exact absurd hS (Split_ne_nil 46 idToken)
  | cons a t =>
    cases t with
    | nil => exact ⟨1, 1, by simp [index]⟩
    | cons b u =>
      cases u with
      | nil => exact ⟨2, 2, by simp [index]⟩
      | cons c v => rw [hS] at h; simp only [List.length_cons] at h; omega

/-- C1, at the inputs `abc` and `a.b`. -/
theorem DecodeJWT_panics_below_three_segments_witness :
    (Split 46 (bytes "abc")).length < 3 ∧
    (∃ i n, DecodeJWT (bytes "abc") = .panic (.indexOutOfRange i n)) ∧
    (∃ i n, DecodeJWT (bytes "a.b") = .panic (.indexOutOfRange i n)) :=
  ⟨by decide, DecodeJWT_panics_below_three_segments (bytes "abc") (by decide),
    DecodeJWT_panics_below_three_segments (bytes "a.b") (by decide)⟩

/-- With more than three segments `DecodeJWT` reads the first three and
ignores the others: `e30.e30.AA.extra` is decoded like `e30.e30.AA`. -/
theorem DecodeJWT_accepts_four_segments :
    (Split 46 (bytes "e30.e30.AA.extra")).length = 4 ∧
    DecodeJWT (bytes "e30.e30.AA.extra") = .ok ⟨[], [], [0], bytes "e30.e30"⟩ ∧
    DecodeJWT (bytes "e30.e30.AA") = .ok ⟨[], [], [0], bytes "e30.e30"⟩ :=
  ⟨by decide, by rfl, by rfl⟩

/-- `DecodeJWT` reads the first three segments only. -/
theorem DecodeJWT_ignores_later_segments (h p s : GoString) (more : GoString)
    (hh : (46 : UInt8) ∉ h) (hp : (46 : UInt8) ∉ p) (hs : (46 : UInt8) ∉ s) :
    DecodeJWT (h ++ [46] ++ p ++ [46] ++ s ++ [46] ++ more)
      = DecodeJWT (h ++ [46] ++ p ++ [46] ++ s) := by
  have e : h ++ [46] ++ p ++ [46] ++ s ++ [46] ++ more
      = h ++ 46 :: (p ++ 46 :: (s ++ 46 :: more)) := by simp
  unfold DecodeJWT
  rw [Split_three h p s hh hp hs, e, Split_append 46 h _ hh, Split_append 46 p _ hp,
    Split_append 46 s _ hs]
  simp [index]

/-! ## The decoder does not read past the first value -/

/-- A scan that is complete after one more byte was complete before it. -/
theorem Scan.succ_eq_done (s : Scan) (n : Nat) (h : s.succ = .done n) :
    ∃ m, s = .done m ∧ n = m + 1 := by
  cases s with
  | done m => exact ⟨m, rfl, by simpa [Scan.succ] using h.symm⟩
  | bad => simp [Scan.succ] at h
  | truncated => simp [Scan.succ] at h

/-- A complete string literal lies inside the input and stays the same when
the input goes on. -/
theorem scanString_append (rest : GoString) :
    ∀ (cs : GoString) (st : StrState) (n : Nat), scanString st cs = .done n →
      n ≤ cs.length ∧ scanString st (cs ++ rest) = .done n := by
  intro cs
  induction cs with
  | nil => intro st n h; cases st <;> simp [scanString] at h
  | cons c cs ih =>
    intro st n h
    have step : ∀ st', (scanString st' cs).succ = .done n →
        n ≤ (c :: cs).length ∧ (scanString st' (cs ++ rest)).succ = .done n := by
      intro st' h'
      obtain ⟨m, hm, rfl⟩ := Scan.succ_eq_done _ _ h'
      obtain ⟨h1, h2⟩ := ih st' m hm
      exact ⟨by simp; omega, by rw [h2]; rfl⟩
    cases st with
    | plain =>
      simp only [scanString, List.cons_append] at h ⊢
      split_ifs at h ⊢ with h1 h2 h3
      · simp only [Scan.done.injEq] at h; subst h; exact ⟨by simp, rfl⟩
      · exact step _ h
      · exact step _ h
    | esc =>
      simp only [scanString, List.cons_append] at h ⊢
      split_ifs at h ⊢ with h1 h2
      · exact step _ h
      · exact step _ h
    | hex more =>
      simp only [scanString, List.cons_append] at h ⊢
      cases hv : hexValue c with
      | none => simp [hv] at h
      | some v =>
        simp only [hv] at h ⊢
        cases more with
        | zero => exact step _ h
        | succ m => exact step _ h

/-- A complete literal name lies inside the input and stays the same when the
input goes on. -/
theorem scanLiteral_append (rest : GoString) :
    ∀ (name cs : GoString) (n : Nat), scanLiteral name cs = .done n →
      n ≤ cs.length ∧ scanLiteral name (cs ++ rest) = .done n := by
  intro name
  induction name with
  | nil =>
    intro cs n h
    simp only [scanLiteral, Scan.done.injEq] at h
    subst h
    exact ⟨by simp, by simp [scanLiteral]⟩
  | cons a name ih =>
    intro cs n h
    cases cs with
    | nil => simp [scanLiteral] at h
    | cons c cs =>
      simp only [scanLiteral, List.cons_append] at h ⊢
      split_ifs at h ⊢ with h1
      obtain ⟨m, hm, rfl⟩ := Scan.succ_eq_done _ _ h
      obtain ⟨h1, h2⟩ := ih cs m hm
      refine ⟨by simp; omega, ?_⟩
      show (scanLiteral name (cs ++ rest)).succ = Scan.done (m + 1)
      rw [h2]; rfl

/-- A number literal lies inside the input, and one that ends before the end
of the input stays the same when the input goes on. -/
theorem scanNumber_append (rest : GoString) :
    ∀ (cs : GoString) (st : NumState) (n : Nat), scanNumber st cs = .done n →
      n ≤ cs.length ∧ (n < cs.length → scanNumber st (cs ++ rest) = .done n) := by
  intro cs
  induction cs with
  | nil =>
    intro st n h
    cases st <;> simp [scanNumber] at h <;> subst h <;> simp
  | cons c cs ih =>
    intro st n h
    have step : ∀ st', (scanNumber st' cs).succ = .done n →
        n ≤ (c :: cs).length ∧
          (n < (c :: cs).length → (scanNumber st' (cs ++ rest)).succ = .done n) := by
      intro st' h'
      obtain ⟨m, hm, rfl⟩ := Scan.succ_eq_done _ _ h'
      obtain ⟨h1, h2⟩ := ih st' m hm
      refine ⟨by simp; omega, fun hlt => ?_⟩
      rw [h2 (by simpa using hlt)]; rfl
    have stop : Scan.done 0 = .done n →
        n ≤ (c :: cs).length ∧ (n < (c :: cs).length → Scan.done 0 = .done n) := by
      intro h'
      simp only [Scan.done.injEq] at h'
      subst h'
      exact ⟨by simp, fun _ => rfl⟩
    cases st <;> simp only [scanNumber, List.cons_append] at h ⊢ <;> split_ifs at h ⊢ <;>
      first
        | exact step _ h
        | exact stop h

/-- Nothing is left to tokenize when the bytes to skip cover the input. -/
theorem tokenize_skip_all : ∀ (cs : GoString) (k : Nat), cs.length ≤ k → tokenize k cs = [] := by
  intro cs
  induction cs with
  | nil => intro k _; cases k <;> rfl
  | cons c cs ih =>
    intro k hk
    cases k with
    | zero => simp at hk
    | succ k => simp only [tokenize]; exact ih k (by simpa using hk)

/-- The decoder stops with an error at a byte the scanner rejects. -/
theorem Parser.step_bad (p : Parser) : ∃ e, p.step .bad = .error e := by
  obtain ⟨stack, expect, saved⟩ := p
  cases expect <;>
    simp [Parser.step, Parser.beginValue, Parser.beginKey, Parser.close, Parser.afterKey,
      Parser.afterValue]

/-- The decoder stops with an error at the end of the input. -/
theorem Parser.step_truncated (p : Parser) : ∃ e, p.step .truncated = .error e := by
  obtain ⟨stack, expect, saved⟩ := p
  cases expect <;>
    simp [Parser.step, Parser.beginValue, Parser.beginKey, Parser.close, Parser.afterKey,
      Parser.afterValue]

/-- A value that completes the decoding is returned with the saved flag. -/
theorem Parser.produce_inl (p : Parser) (v : GoValue) (r : GoValue × Bool)
    (h : p.produce v = .ok (.inl r)) : r = (v, p.saved) := by
  obtain ⟨stack, expect, saved⟩ := p
  unfold Parser.produce at h
  split at h
  · simp only [Except.ok.injEq, Sum.inl.injEq] at h; exact h.symm
  · simp at h
  · simp at h
  · simp at h

/-- A number that completes the value is the value. -/
theorem Parser.step_number (p : Parser) (f : Option ℚ) (r : GoValue × Bool)
    (h : p.step (.number f) = .ok (.inl r)) :
    (∃ g, r.1 = .float64 g) ∨ r = (.null, true) := by
  have hb : p.beginValue (.number f) = .ok (.inl r) →
      (∃ g, r.1 = .float64 g) ∨ r = (.null, true) := by
    intro hb
    cases f with
    | none =>
      simp only [Parser.beginValue] at hb
      right
      exact Parser.produce_inl _ _ _ hb
    | some g =>
      simp only [Parser.beginValue] at hb
      left
      exact ⟨g, by rw [Parser.produce_inl _ _ _ hb]⟩
  unfold Parser.step at h
  split at h
  · exact hb h
  · simp only [reduceCtorEq, if_false] at h; exact hb h
  · simp [Parser.beginKey] at h
  · simp [Parser.beginKey] at h
  · simp [Parser.afterKey] at h
  · simp [Parser.afterValue] at h

/-- A token in front: the decoder behaves alike on two token streams on
which it behaves alike from every state. -/
theorem Parser.run_cons_congr (t : Token) (ts ts' : List Token) (p : Parser)
    (r : GoValue × Bool)
    (ih : ∀ q, Parser.run q ts = .ok r → Parser.run q ts' = .ok r)
    (h : Parser.run p (t :: ts) = .ok r) : Parser.run p (t :: ts') = .ok r := by
  simp only [Parser.run] at h ⊢
  cases hs : p.step t with
  | error e => simp [hs] at h
  | ok x =>
    cases x with
    | inl r' => simpa [hs] using h
    | inr q =>
      simp only [hs] at h ⊢
      exact ih q h

/-- The decoder fails on a stream that ends with a rejected byte. -/
theorem Parser.run_bad (p : Parser) (r : GoValue × Bool) : Parser.run p [.bad] ≠ .ok r := by
  obtain ⟨e, he⟩ := Parser.step_bad p
  simp [Parser.run, he]

/-- The decoder fails on a stream that ends inside a token. -/
theorem Parser.run_truncated (p : Parser) (r : GoValue × Bool) :
    Parser.run p [.truncated] ≠ .ok r := by
  obtain ⟨e, he⟩ := Parser.step_truncated p
  simp [Parser.run, he]

/-- A value other than a number that the decoder reads from an input, it
reads from every extension of the input. -/
theorem Parser.run_tokenize_append (rest : GoString) (r : GoValue × Bool)
    (hr1 : ∀ g, r.1 ≠ .float64 g) (hr2 : r ≠ (.null, true)) :
    ∀ (data : GoString) (k : Nat) (p : Parser),
      Parser.run p (tokenize k data) = .ok r →
      Parser.run p (tokenize k (data ++ rest)) = .ok r := by
  intro data
  induction data with
  | nil => intro k p h; cases k <;> simp [tokenize, Parser.run] at h
  | cons c cs ih =>
    intro k p h
    cases k with
    | succ k =>
      simp only [tokenize, List.cons_append] at h ⊢
      exact ih k p h
    | zero =>
      rw [List.cons_append, tokenize.eq_3]
      rw [tokenize.eq_3] at h
      by_cases c0 : isSpace c = true
      · rw [if_pos c0] at h ⊢
        exact ih 0 p h
      rw [if_neg c0] at h ⊢
      by_cases c1 : c = 123
      · rw [if_pos c1] at h ⊢
        exact Parser.run_cons_congr _ _ _ p r (ih 0) h
      rw [if_neg c1] at h ⊢
      by_cases c2 : c = 125
      · rw [if_pos c2] at h ⊢
        exact Parser.run_cons_congr _ _ _ p r (ih 0) h
      rw [if_neg c2] at h ⊢
      by_cases c3 : c = 91
      · rw [if_pos c3] at h ⊢
        exact Parser.run_cons_congr _ _ _ p r (ih 0) h
      rw [if_neg c3] at h ⊢
      by_cases c4 : c = 93
      · rw [if_pos c4] at h ⊢
        exact Parser.run_cons_congr _ _ _ p r (ih 0) h
      rw [if_neg c4] at h ⊢
      by_cases c5 : c = 58
      · rw [if_pos c5] at h ⊢
        exact Parser.run_cons_congr _ _ _ p r (ih 0) h
      rw [if_neg c5] at h ⊢
      by_cases c6 : c = 44
      · rw [if_pos c6] at h ⊢
        exact Parser.run_cons_congr _ _ _ p r (ih 0) h
      rw [if_neg c6] at h ⊢
      by_cases c7 : c = 34
      · rw [if_pos c7] at h ⊢
        cases hs : scanString .plain cs with
        | bad => simp only [hs] at h; exact absurd h (Parser.run_bad p r)
        | truncated => simp only [hs] at h; exact absurd h (Parser.run_truncated p r)
        | done n =>
          obtain ⟨h1, h2⟩ := scanString_append rest cs .plain n hs
          simp only [hs] at h
          simp only [h2, List.take_append_of_le_length (show n - 1 ≤ cs.length by omega)]
          exact Parser.run_cons_congr _ _ _ p r (ih n) h
      rw [if_neg c7] at h ⊢
      by_cases c8 : c = 45 ∨ isDigit c = true
      · rw [if_pos c8] at h ⊢
        cases hs : scanNumber (if c = 45 then NumState.neg else if c = 48 then NumState.zero
            else NumState.int) cs with
        | bad => simp only [hs] at h; exact absurd h (Parser.run_bad p r)
        | truncated => simp only [hs] at h; exact absurd h (Parser.run_truncated p r)
        | done n =>
          obtain ⟨h1, h2⟩ := scanNumber_append rest cs _ n hs
          simp only [hs] at h
          by_cases hn : n < cs.length
          · simp only [h2 hn, List.take_append_of_le_length h1]
            exact Parser.run_cons_congr _ _ _ p r (ih n) h
          · exfalso
            rw [tokenize_skip_all cs n (by omega)] at h
            simp only [Parser.run] at h
            cases hst : p.step (.number (convertNumber (c :: List.take n cs))) with
            | error e => simp [hst] at h
            | ok x =>
              cases x with
              | inr q => simp [hst] at h
              | inl r' =>
                simp only [hst, Except.ok.injEq] at h
                subst h
                rcases Parser.step_number p _ _ hst with ⟨g, hg⟩ | hg
                · exact hr1 g hg
                · exact hr2 hg
      rw [if_neg c8] at h ⊢
      by_cases c9 : c = 116
      · rw [if_pos c9] at h ⊢
        cases hs : scanLiteral (bytes "rue") cs with
        | bad => simp only [hs] at h; exact absurd h (Parser.run_bad p r)
        | truncated => simp only [hs] at h; exact absurd h (Parser.run_truncated p r)
        | done n =>
          obtain ⟨h1, h2⟩ := scanLiteral_append rest _ cs n hs
          simp only [hs] at h
          simp only [h2]
          exact Parser.run_cons_congr _ _ _ p r (ih n) h
      rw [if_neg c9] at h ⊢
      by_cases c10 : c = 102
      · rw [if_pos c10] at h ⊢
        cases hs : scanLiteral (bytes "alse") cs with
        | bad => simp only [hs] at h; exact absurd h (Parser.run_bad p r)
        | truncated => simp only [hs] at h; exact absurd h (Parser.run_truncated p r)
        | done n =>
          obtain ⟨h1, h2⟩ := scanLiteral_append rest _ cs n hs
          simp only [hs] at h
          simp only [h2]
          exact Parser.run_cons_congr _ _ _ p r (ih n) h
      rw [if_neg c10] at h ⊢
      by_cases c11 : c = 110
      · rw [if_pos c11] at h ⊢
        cases hs : scanLiteral (bytes "ull") cs with
        | bad => simp only [hs] at h; exact absurd h (Parser.run_bad p r)
        | truncated => simp only [hs] at h; exact absurd h (Parser.run_truncated p r)
        | done n =>
          obtain ⟨h1, h2⟩ := scanLiteral_append rest _ cs n hs
          simp only [hs] at h
          simp only [h2]
          exact Parser.run_cons_congr _ _ _ p r (ih n) h
      rw [if_neg c11] at h ⊢
      exact absurd h (Parser.run_bad p r)

/-- A first value is the result of the decoder on the tokens of the input. -/
theorem firstValue_eq_ok (data : GoString) (r : GoValue × Bool) :
    firstValue data = .ok r ↔
      Parser.run { stack := [], expect := .value, saved := false } (tokenize 0 data) = .ok r := by
  unfold firstValue
  cases hT : tokenize 0 data with
  | nil => simp [Parser.run]
  | cons t ts => simp

/-- The map read from a byte stream is read from every stream that starts
with the same bytes: the decoder does not look past the first value. -/
theorem decodeMap?_append (data rest : GoString) (m : GoMap)
    (h : decodeMap? data = .ok m) : decodeMap? (data ++ rest) = .ok m := by
  have key : ∀ r : GoValue × Bool, firstValue data = .ok r → (∀ g, r.1 ≠ .float64 g) →
      r ≠ (.null, true) → firstValue (data ++ rest) = .ok r := by
    intro r hr h1 h2
    rw [firstValue_eq_ok] at hr ⊢
    exact Parser.run_tokenize_append rest r h1 h2 data 0 _ hr
  unfold decodeMap? at h ⊢
  cases hv : firstValue data with
  | error e => simp [hv] at h
  | ok r =>
    obtain ⟨v, b⟩ := r
    rw [hv] at h
    cases v <;> cases b <;> simp at h
    · rw [key _ hv (by simp) (by simp)]
      simp [h]
    · rw [key _ hv (by simp) (by simp)]
      simp [h]

/-! ## Decoding the JSON segments -/

/-- On three dot-free segments that are valid base64url, `DecodeJWT` is the
decoding of the header and payload bytes as JSON maps. -/
theorem DecodeJWT_three (h p s bh bp bs : GoString)
    (hh : (46 : UInt8) ∉ h) (hp : (46 : UInt8) ∉ p) (hs : (46 : UInt8) ∉ s)
    (hA : DecodeString h = .ok bh) (hB : DecodeString p = .ok bp)
    (hC : DecodeString s = .ok bs) :
    DecodeJWT (h ++ [46] ++ p ++ [46] ++ s) =
      match decodeMap? bh with
      | .error e => .error (.context "decode byte header error" (.json e))
      | .ok hdr =>
        match decodeMap? bp with
        | .error e => .error (.context "decode byte payload error" (.json e))
        | .ok pl =>
          .ok { Header := hdr, Payload := pl, Signature := bs,
                SignatureOrigin := h ++ [46] ++ p } := by
  unfold DecodeJWT
  simp only [Split_three h p s hh hp hs, index, List.get?, hA, hB, hC]

/-- The JSON decoder fills a map exactly from a first value that is an object
with every number in range, or `null`. -/
theorem decodeMap?_isOk (data : GoString) :
    (decodeMap? data).isOk = true ↔
      (∃ m, firstValue data = .ok (.map m, false)) ∨ firstValue data = .ok (.null, false) := by
  unfold decodeMap?
  cases hv : firstValue data with
  | error e => simp [Except.isOk, Except.toBool]
  | ok r =>
    obtain ⟨v, b⟩ := r
    cases v <;> cases b <;> simp [Except.isOk, Except.toBool]

/-- C7, counterexample. The segment `bnVsbA` decodes to the bytes `null` and
`e314` to an empty object followed by `x`; `DecodeJWT` succeeds on tokens with
such a header or payload. -/
theorem DecodeJWT_accepts_null_and_trailing :
    DecodeString (bytes "bnVsbA") = .ok (bytes "null") ∧
    DecodeString (bytes "e314") = .ok (bytes "\x7b\x7dx") ∧
    DecodeJWT (bytes "bnVsbA.e30.AA") = .ok ⟨[], [], [0], bytes "bnVsbA.e30"⟩ ∧
    DecodeJWT (bytes "e30.bnVsbA.AA") = .ok ⟨[], [], [0], bytes "e30.bnVsbA"⟩ ∧
    DecodeJWT (bytes "e314.e30.AA") = .ok ⟨[], [], [0], bytes "e314.e30"⟩ ∧
    DecodeJWT (bytes "e30.e314.AA") = .ok ⟨[], [], [0], bytes "e30.e314"⟩ :=
  ⟨by rfl, by rfl, by rfl, by rfl, by rfl, by rfl⟩

/-- C7, amended. On three dot-free segments that are valid unpadded
base64url, `DecodeJWT` returns an error or succeeds, never panics; it succeeds
exactly when the first JSON value of the decoded header bytes and the first
JSON value of the decoded payload bytes are each an object with every number
in the range of `float64`, or `null`; it returns an error when one of the two
first values is an array, a string, a number or a boolean, and when one of the
two byte strings does not begin with a well-formed JSON value; and bytes after
the first value are not read: a header or payload segment whose decoded bytes
continue the decoded bytes of an accepted one is accepted with the same
map. -/
theorem DecodeJWT_json_first_value (h p s bh bp bs : GoString)
    (hh : (46 : UInt8) ∉ h) (hp : (46 : UInt8) ∉ p) (hs : (46 : UInt8) ∉ s)
    (hA : DecodeString h = .ok bh) (hB : DecodeString p = .ok bp)
    (hC : DecodeString s = .ok bs) :
    ((DecodeJWT (h ++ [46] ++ p ++ [46] ++ s)).isOk = true ∨
      (DecodeJWT (h ++ [46] ++ p ++ [46] ++ s)).isError = true) ∧
    ((DecodeJWT (h ++ [46] ++ p ++ [46] ++ s)).isOk = true ↔
      ((∃ m, firstValue bh = .ok (.map m, false)) ∨ firstValue bh = .ok (.null, false)) ∧
      ((∃ m, firstValue bp = .ok (.map m, false)) ∨ firstValue bp = .ok (.null, false))) ∧
    (∀ v b, firstValue bh = .ok (v, b) ∨ firstValue bp = .ok (v, b) →
      (∀ m, v ≠ .map m) → v ≠ .null →
      (DecodeJWT (h ++ [46] ++ p ++ [46] ++ s)).isError = true) ∧
    (∀ e, firstValue bh = .error e ∨ firstValue bp = .error e →
      (DecodeJWT (h ++ [46] ++ p ++ [46] ++ s)).isError = true) ∧
    (∀ (h' rest : GoString) (jwt : JWT), (46 : UInt8) ∉ h' →
      DecodeString h' = .ok (bh ++ rest) →
      DecodeJWT (h ++ [46] ++ p ++ [46] ++ s) = .ok jwt →
      DecodeJWT (h' ++ [46] ++ p ++ [46] ++ s)
        = .ok { jwt with SignatureOrigin := h' ++ [46] ++ p }) ∧
    (∀ (p' rest : GoString) (jwt : JWT), (46 : UInt8) ∉ p' →
      DecodeString p' = .ok (bp ++ rest) →
      DecodeJWT (h ++ [46] ++ p ++ [46] ++ s) = .ok jwt →
      DecodeJWT (h ++ [46] ++ p' ++ [46] ++ s)
        = .ok { jwt with SignatureOrigin := h ++ [46] ++ p' }) := by
  have k1 : (DecodeJWT (h ++ [46] ++ p ++ [46] ++ s)).isOk = true ↔
      (decodeMap? bh).isOk = true ∧ (decodeMap? bp).isOk = true := by
    rw [DecodeJWT_three h p s bh bp bs hh hp hs hA hB hC]
    cases decodeMap? bh <;> cases decodeMap? bp <;>
      simp [Result.isOk, Except.isOk, Except.toBool]
  have k2 : (DecodeJWT (h ++ [46] ++ p ++ [46] ++ s)).isError = true ↔
      ¬ ((decodeMap? bh).isOk = true ∧ (decodeMap? bp).isOk = true) := by
    rw [DecodeJWT_three h p s bh bp bs hh hp hs hA hB hC]
    cases decodeMap? bh <;> cases decodeMap? bp <;>
      simp [Result.isError, Except.isOk, Except.toBool]
  refine ⟨?_, ?_, ?_, ?_, ?_, ?_⟩
  · by_cases c : (decodeMap? bh).isOk = true ∧ (decodeMap? bp).isOk = true
    · exact Or.inl (k1.mpr c)
    · exact Or.inr (k2.mpr c)
  · rw [k1, decodeMap?_isOk, decodeMap?_isOk]
  · intro v b hv hm hn
    rw [k2, decodeMap?_isOk, decodeMap?_isOk]
    rintro ⟨h1, h2⟩
    rcases hv with hv | hv
    · rcases h1 with ⟨m, e⟩ | e
      · rw [hv] at e; simp only [Except.ok.injEq, Prod.mk.injEq] at e; exact hm m e.1
      · rw [hv] at e; simp only [Except.ok.injEq, Prod.mk.injEq] at e; exact hn e.1
    · rcases h2 with ⟨m, e⟩ | e
      · rw [hv] at e; simp only [Except.ok.injEq, Prod.mk.injEq] at e; exact hm m e.1
      · rw [hv] at e; simp only [Except.ok.injEq, Prod.mk.injEq] at e; exact hn e.1
  · intro e he
    rw [k2, decodeMap?_isOk, decodeMap?_isOk]
    rintro ⟨h1, h2⟩
    rcases he with he | he
    · rcases h1 with ⟨m, e'⟩ | e' <;> rw [he] at e' <;> simp at e'
    · rcases h2 with ⟨m, e'⟩ | e' <;> rw [he] at e' <;> simp at e'
  · intro h' rest jwt hh' hA' hok
    rw [DecodeJWT_three h p s bh bp bs hh hp hs hA hB hC] at hok
    rw [DecodeJWT_three h' p s (bh ++ rest) bp bs hh' hp hs hA' hB hC]
    cases hx : decodeMap? bh with
    | error e => simp [hx] at hok
    | ok hdr =>
      cases hy : decodeMap? bp with
      | error e => simp [hx, hy] at hok
      | ok pl =>
        simp only [hx, hy, Result.ok.injEq] at hok
        simp only [decodeMap?_append bh rest hdr hx, hy, ← hok]
  · intro p' rest jwt hp' hB' hok
    rw [DecodeJWT_three h p s bh bp bs hh hp hs hA hB hC] at hok
    rw [DecodeJWT_three h p' s bh (bp ++ rest) bs hh hp' hs hA hB' hC]
    cases hx : decodeMap? bh with
    | error e => simp [hx] at hok
    | ok hdr =>
      cases hy : decodeMap? bp with
      | error e => simp [hx, hy] at hok
      | ok pl =>
        simp only [hx, hy, Result.ok.injEq] at hok
        simp only [decodeMap?_append bp rest pl hy, hx, ← hok]

/-- C7 amended, at the token `W10.e30.AA`, whose header bytes are the empty
array, and at `e30.e30.AA`, whose header can be continued to `e314`: an error
is returned for the first, the second and its continuation are accepted. -/
theorem DecodeJWT_json_first_value_witness :
    (DecodeJWT (bytes "W10" ++ [46] ++ bytes "e30" ++ [46] ++ bytes "AA")).isError = true ∧
    DecodeJWT (bytes "e314" ++ [46] ++ bytes "e30" ++ [46] ++ bytes "AA")
      = .ok ⟨[], [], [0], bytes "e314" ++ [46] ++ bytes "e30"⟩ :=
  ⟨(DecodeJWT_json_first_value (bytes "W10") (bytes "e30") (bytes "AA") (bytes "[]")
      (bytes "\x7b\x7d") [0] (by decide) (by decide) (by decide) (by rfl) (by rfl) (by rfl)).2.2.1
      (.slice []) false (Or.inl (by rfl)) (fun m e => by cases e) (fun e => by cases e),
    (DecodeJWT_json_first_value (bytes "e30") (bytes "e30") (bytes "AA") (bytes "\x7b\x7d")
      (bytes "\x7b\x7d") [0] (by decide) (by decide) (by decide) (by rfl) (by rfl)
      (by rfl)).2.2.2.2.1 (bytes "e314") (bytes "x") ⟨[], [], [0], bytes "e30.e30"⟩ (by decide)
      (by rfl) (by rfl)⟩

/-! ## Claim checks -/

/-- Reading a key after a write: the written value for that key, the old one
for every other key. -/
theorem GoMap.get_set (m : GoMap) (k key : GoString) (v : GoValue) :
    (m.set k v).get key = if key = k then some v else m.get key := by
  induction m with
  | nil =>
    by_cases h : key = k
    · simp [GoMap.set, GoMap.get, h]
    · have h' : k ≠ key := fun e => h e.symm
      simp [GoMap.set, GoMap.get, h, h']
  | cons kv m ih =>
    obtain ⟨k0, w⟩ := kv
    by_cases h0 : k0 = k
    · subst h0
      by_cases h : key = k0
      · simp [GoMap.set, GoMap.get, h]
      · have h' : k0 ≠ key := fun e => h e.symm
        simp [GoMap.set, GoMap.get, h, h']
    · by_cases h1 : k0 = key
      · subst h1
        simp [GoMap.set, GoMap.get, h0]
      · simp [GoMap.set, GoMap.get, h0, h1, ih]

/-- The result of `verifyAud` is a function of the `aud` entry alone. -/
theorem verifyAud_congr (j j' : JWT) (clientId : GoString)
    (h : j'.Payload.get (bytes "aud") = j.Payload.get (bytes "aud")) :
    verifyAud j' clientId = verifyAud j clientId := by
  simp [verifyAud, h]

/-- The result of `verifyIss` is a function of the `iss` entry alone. -/
theorem verifyIss_congr (j j' : JWT) (domain : GoString)
    (h : j'.Payload.get (bytes "iss") = j.Payload.get (bytes "iss")) :
    verifyIss j' domain = verifyIss j domain := by
  simp [verifyIss, h]

/-- The result of `verifyExp` is a function of the `exp` entry and the clock
alone. -/
theorem verifyExp_congr (j j' : JWT) (now : Int)
    (h : j'.Payload.get (bytes "exp") = j.Payload.get (bytes "exp")) :
    verifyExp j' now = verifyExp j now := by
  simp [verifyExp, h]

/-- The result of `verifySignature` does not depend on the payload map nor on
the clock. -/
theorem verifySignature_payload (w : World) (j : JWT) (pl : GoMap) (t : Int) :
    verifySignature { w with now := t } { j with Payload := pl } = verifySignature w j := by
  rfl

/-- C6. For a payload whose `aud` and `iss` are strings, `verifyAud` returns
its error exactly when `aud` differs from the client id and nil exactly when
they are equal, `verifyIss` likewise for `iss` and the domain; writing any
other value to `aud` changes neither `verifyIss` nor `verifyExp`, and writing
any other value to `iss` changes neither `verifyAud` nor `verifyExp`. -/
theorem verifyAud_verifyIss_exact (j : JWT) (aud iss clientId domain : GoString)
    (ha : j.Payload.get (bytes "aud") = some (.string aud))
    (hi : j.Payload.get (bytes "iss") = some (.string iss)) :
    (verifyAud j clientId = .error (.invalidAud aud) ↔ aud ≠ clientId) ∧
    (verifyAud j clientId = .ok () ↔ aud = clientId) ∧
    ((verifyAud j clientId).isError = true ↔ aud ≠ clientId) ∧
    (verifyIss j domain = .error (.invalidIss iss) ↔ iss ≠ domain) ∧
    (verifyIss j domain = .ok () ↔ iss = domain) ∧
    ((verifyIss j domain).isError = true ↔ iss ≠ domain) ∧
    (∀ (v : GoValue) (now : Int),
      verifyIss { j with Payload := j.Payload.set (bytes "aud") v } domain = verifyIss j domain ∧
      verifyExp { j with Payload := j.Payload.set (bytes "aud") v } now = verifyExp j now) ∧
    (∀ (v : GoValue) (now : Int),
      verifyAud { j with Payload := j.Payload.set (bytes "iss") v } clientId = verifyAud j clientId ∧
      verifyExp { j with Payload := j.Payload.set (bytes "iss") v } now = verifyExp j now) := by
  have e1 : bytes "iss" ≠ bytes "aud" := by decide
  have e2 : bytes "exp" ≠ bytes "aud" := by decide
  have e3 : bytes "aud" ≠ bytes "iss" := by decide
  have e4 : bytes "exp" ≠ bytes "iss" := by decide
  refine ⟨?_, ?_, ?_, ?_, ?_, ?_, ?_, ?_⟩
  · by_cases h : aud = clientId <;> simp [verifyAud, ha, assertString, h]
  · by_cases h : aud = clientId <;> simp [verifyAud, ha, assertString, h]
  · by_cases h : aud = clientId <;> simp [verifyAud, ha, assertString, h, Result.isError]
  · by_cases h : iss = domain <;> simp [verifyIss, hi, assertString, h]
  · by_cases h : iss = domain <;> simp [verifyIss, hi, assertString, h]
  · by_cases h : iss = domain <;> simp [verifyIss, hi, assertString, h, Result.isError]
  · intro v now
    exact ⟨verifyIss_congr _ _ _ (by simp [GoMap.get_set, e1]),
      verifyExp_congr _ _ _ (by simp [GoMap.get_set, e2])⟩
  · intro v now
    exact ⟨verifyAud_congr _ _ _ (by simp [GoMap.get_set, e3]),
      verifyExp_congr _ _ _ (by simp [GoMap.get_set, e4])⟩

/-- C6, at the payload with `aud` `c` and `iss` `i`, checked against client
id `c` and domain `d`. -/
theorem verifyAud_verifyIss_exact_witness :
    verifyAud ⟨[], [(bytes "aud", .string (bytes "c")), (bytes "iss", .string (bytes "i"))], [], []⟩
        (bytes "c") = .ok () ∧
    verifyIss ⟨[], [(bytes "aud", .string (bytes "c")), (bytes "iss", .string (bytes "i"))], [], []⟩
        (bytes "d") = .error (.invalidIss (bytes "i")) :=
  have h := verifyAud_verifyIss_exact
    ⟨[], [(bytes "aud", .string (bytes "c")), (bytes "iss", .string (bytes "i"))], [], []⟩
    (bytes "c") (bytes "i") (bytes "c") (bytes "d") (by rfl) (by rfl)
  ⟨h.2.1.mpr rfl, h.2.2.2.1.mpr (by decide)⟩

/-- C3. `Verify` runs the signature, `aud`, `iss` and `exp` checks in this
order and returns the error of the first one that fails: a signature error is
returned whatever the payload and the clock are; with a valid signature an
`aud` error is returned whatever the other claims and the clock are; with
valid signature and `aud` an `iss` error is returned whatever the other claims
and the clock are; with the first three valid an `exp` error is returned; and
`Verify` returns nil exactly when the four checks return nil. -/
theorem Verify_order (w : World) (j : JWT) (clientId domain : GoString) :
    (∀ e, verifySignature w j = .error e →
      ∀ (pl : GoMap) (t : Int),
        Verify { w with now := t } { j with Payload := pl } clientId domain
          = .error (.context "failed to verify signature" e)) ∧
    (∀ e, verifySignature w j = .ok () → verifyAud j clientId = .error e →
      ∀ (pl : GoMap) (t : Int), pl.get (bytes "aud") = j.Payload.get (bytes "aud") →
        Verify { w with now := t } { j with Payload := pl } clientId domain
          = .error (.context "failed to verify aud" e)) ∧
    (∀ e, verifySignature w j = .ok () → verifyAud j clientId = .ok () →
      verifyIss j domain = .error e →
      ∀ (pl : GoMap) (t : Int), pl.get (bytes "aud") = j.Payload.get (bytes "aud") →
        pl.get (bytes "iss") = j.Payload.get (bytes "iss") →
        Verify { w with now := t } { j with Payload := pl } clientId domain
          = .error (.context "failed to verify iss" e)) ∧
    (∀ e, verifySignature w j = .ok () → verifyAud j clientId = .ok () →
      verifyIss j domain = .ok () → verifyExp j w.now = .error e →
        Verify w j clientId domain = .error (.context "failed to verify exp" e)) ∧
    (Verify w j clientId domain = .ok () ↔
      verifySignature w j = .ok () ∧ verifyAud j clientId = .ok () ∧
      verifyIss j domain = .ok () ∧ verifyExp j w.now = .ok ()) := by
  refine ⟨?_, ?_, ?_, ?_, ?_⟩
  · intro e hs pl t
    simp [Verify, verifySignature_payload, hs]
  · intro e hs ha pl t hpl
    have ha' : verifyAud { j with Payload := pl } clientId = .error e := by
      rw [verifyAud_congr j _ clientId hpl]; exact ha
    simp [Verify, verifySignature_payload, hs, ha']
  · intro e hs ha hi pl t hpl hpl'
    have ha' : verifyAud { j with Payload := pl } clientId = .ok () := by
      rw [verifyAud_congr j _ clientId hpl]; exact ha
    have hi' : verifyIss { j with Payload := pl } domain = .error e := by
      rw [verifyIss_congr j _ domain hpl']; exact hi
    simp [Verify, verifySignature_payload, hs, ha', hi']
  · intro e hs ha hi he
    simp [Verify, hs, ha, hi, he]
  · unfold Verify
    cases hs : verifySignature w j <;> simp
    cases ha : verifyAud j clientId <;> simp
    cases hi : verifyIss j domain <;> simp
    cases he : verifyExp j w.now <;> simp

/-- C3, at a token without `exp`: a failing signature check, a wrong client
id and a wrong domain are each reported, for an empty payload, for a payload
holding only `aud`, and for the payload of the token. -/
theorem Verify_order_witness :
    Verify { worldNoKeys with now := 0 } { tokenNoExp with Payload := [] } (bytes "c") (bytes "i")
      = .error (.context "failed to verify signature" (.context "failed to request" .transport)) ∧
    Verify { worldAccepting with now := 0 }
        { tokenNoExp with Payload := [(bytes "aud", .string (bytes "c"))] } (bytes "x") (bytes "i")
      = .error (.context "failed to verify aud" (.invalidAud (bytes "c"))) ∧
    Verify { worldAccepting with now := 0 } { tokenNoExp with Payload := tokenNoExp.Payload }
        (bytes "c") (bytes "x")
      = .error (.context "failed to verify iss" (.invalidIss (bytes "i"))) :=
  ⟨(Verify_order worldNoKeys tokenNoExp (bytes "c") (bytes "i")).1 _ (by rfl) [] 0,
    (Verify_order worldAccepting tokenNoExp (bytes "x") (bytes "i")).2.1 _ (by rfl) (by rfl)
      [(bytes "aud", .string (bytes "c"))] 0 (by rfl),
    (Verify_order worldAccepting tokenNoExp (bytes "c") (bytes "x")).2.2.1 _ (by rfl) (by rfl)
      (by rfl) tokenNoExp.Payload 0 (by rfl) (by rfl)⟩

/-- C5. When `aud` is not a string `verifyAud` panics, when `iss` is not a
string `verifyIss` panics, and when `exp` is not a number `verifyExp` panics:
the unchecked type assertion fails, no error is returned. -/
theorem verify_claims_panic (j : JWT) (clientId domain : GoString) (now : Int) :
    ((∀ s, j.Payload.get (bytes "aud") ≠ some (.string s)) →
      verifyAud j clientId = .panic .typeAssertion) ∧
    ((∀ s, j.Payload.get (bytes "iss") ≠ some (.string s)) →
      verifyIss j domain = .panic .typeAssertion) ∧
    ((∀ f, j.Payload.get (bytes "exp") ≠ some (.float64 f)) →
      verifyExp j now = .panic .typeAssertion) := by
  refine ⟨?_, ?_, ?_⟩
  · intro h
    unfold verifyAud
    cases hv : j.Payload.get (bytes "aud") with
    | none => rfl
    | some v => cases v <;> first | rfl | exact absurd hv (h _)
  · intro h
    unfold verifyIss
    cases hv : j.Payload.get (bytes "iss") with
    | none => rfl
    | some v => cases v <;> first | rfl | exact absurd hv (h _)
  · intro h
    unfold verifyExp
    cases hv : j.Payload.get (bytes "exp") with
    | none => rfl
    | some v => cases v <;> first | rfl | exact absurd hv (h _)

/-- C5, at the payload whose `aud` is the array `["c"]`, whose `iss` is absent
and whose `exp` is the string `1`. -/
theorem verify_claims_panic_witness :
    verifyAud ⟨[], [(bytes "aud", .slice [.string (bytes "c")]), (bytes "exp", .string (bytes "1"))],
        [], []⟩ (bytes "c") = .panic .typeAssertion ∧
    verifyIss ⟨[], [(bytes "aud", .slice [.string (bytes "c")]), (bytes "exp", .string (bytes "1"))],
        [], []⟩ (bytes "i") = .panic .typeAssertion ∧
    verifyExp ⟨[], [(bytes "aud", .slice [.string (bytes "c")]), (bytes "exp", .string (bytes "1"))],
        [], []⟩ 0 = .panic .typeAssertion :=
  have h := verify_claims_panic
    ⟨[], [(bytes "aud", .slice [.string (bytes "c")]), (bytes "exp", .string (bytes "1"))], [], []⟩
    (bytes "c") (bytes "i") 0
  ⟨h.1 (fun s e => by simp [GoMap.get] at e),
    h.2.1 (fun s e => by
      have e1 : bytes "aud" ≠ bytes "iss" := by decide
      have e2 : bytes "exp" ≠ bytes "iss" := by decide
      simp [GoMap.get, e1, e2] at e),
    h.2.2 (fun f e => by
      have e1 : bytes "aud" ≠ bytes "exp" := by decide
      simp [GoMap.get, e1] at e)⟩

/-- The conversion of the clock to `float64` is exact up to `2 ^ 53`. -/
theorem float64OfInt64_exact (n : Int) (h : n.natAbs ≤ 2 ^ 53) :
    float64OfInt64 n = (n : ℚ) := by
  unfold float64OfInt64
  rw [if_pos h]

/-- C4, counterexample. With `exp` equal to the current time, 1700000000, the
token is not strictly in the future and `verifyExp` returns nil. -/
theorem verifyExp_accepts_exp_eq_now :
    tokenExpOnly.Payload.get (bytes "exp") = some (.float64 1700000000) ∧
    ¬ ((1700000000 : ℚ) > ((1700000000 : Int) : ℚ)) ∧
    verifyExp tokenExpOnly 1700000000 = .ok () := by
  refine ⟨by rfl, by norm_num, ?_⟩
  have h : float64OfInt64 1700000000 = ((1700000000 : Int) : ℚ) :=
    float64OfInt64_exact _ (by decide)
  have hg : tokenExpOnly.Payload.get (bytes "exp") = some (.float64 1700000000) := by rfl
  simp [verifyExp, hg, assertFloat64, h]

/-- C4, amended. For a payload whose `exp` is a number, `verifyExp` returns
nil exactly when `exp` is at least the current time converted to `float64`,
and the expiry error exactly when `exp` is below it; the conversion is exact
for times up to `2 ^ 53`, so for such a time `exp = now` is accepted and
`exp < now` is rejected. -/
theorem verifyExp_iff (j : JWT) (exp : ℚ) (now : Int)
    (h : j.Payload.get (bytes "exp") = some (.float64 exp)) :
    (verifyExp j now = .ok () ↔ float64OfInt64 now ≤ exp) ∧
    (verifyExp j now = .error (.invalidExp exp) ↔ exp < float64OfInt64 now) ∧
    (now.natAbs ≤ 2 ^ 53 → (verifyExp j now = .ok () ↔ (now : ℚ) ≤ exp)) ∧
    (now.natAbs ≤ 2 ^ 53 → (verifyExp j now = .error (.invalidExp exp) ↔ exp < (now : ℚ))) := by
  have a : verifyExp j now = .ok () ↔ float64OfInt64 now ≤ exp := by
    by_cases c : exp < float64OfInt64 now
    · simp [verifyExp, h, assertFloat64, c]
    · simp [verifyExp, h, assertFloat64, c, not_lt.mp c]
  have b : verifyExp j now = .error (.invalidExp exp) ↔ exp < float64OfInt64 now := by
    by_cases c : exp < float64OfInt64 now
    · simp [verifyExp, h, assertFloat64, c]
    · simp [verifyExp, h, assertFloat64, c]
  refine ⟨a, b, ?_, ?_⟩
  · intro hn; rw [a, float64OfInt64_exact now hn]
  · intro hn; rw [b, float64OfInt64_exact now hn]

/-- C4 amended, at `exp` 1700000000: accepted at the time 1700000000,
rejected one second later. -/
theorem verifyExp_iff_witness :
    verifyExp tokenExpOnly 1700000000 = .ok () ∧
    verifyExp tokenExpOnly 1700000001 = .error (.invalidExp 1700000000) :=
  ⟨((verifyExp_iff tokenExpOnly 1700000000 1700000000 (by rfl)).2.2.1 (by decide)).mpr
      (by norm_num),
    ((verifyExp_iff tokenExpOnly 1700000000 1700000001 (by rfl)).2.2.2 (by decide)).mpr
      (by norm_num)⟩

/-! ## Key selection -/

/-- `SetBytes` reads its bytes big-endian: the first byte has the highest
weight. -/
theorem SetBytes_cons (b : UInt8) (bs : GoString) :
    SetBytes (b :: bs) = b.toNat * 256 ^ bs.length + SetBytes bs := by
  have gen : ∀ (l : GoString) (acc : Nat),
      l.foldl (fun a x => a * 256 + x.toNat) acc
        = acc * 256 ^ l.length + l.foldl (fun a x => a * 256 + x.toNat) 0 := by
    intro l
    induction l with
    | nil => intro acc; simp
    | cons x xs ih =>
      intro acc
      simp only [List.foldl_cons, List.length_cons]
      rw [ih (acc * 256 + x.toNat), ih (0 * 256 + x.toNat)]
      ring
  unfold SetBytes
  simp only [List.foldl_cons]
  rw [gen bs (0 * 256 + b.toNat)]
  simp

/-- `SetBytes` computes the unsigned big-endian value. -/
theorem SetBytes_eq_bigEndianValue (b : GoString) : SetBytes b = bigEndianValue b := by
  induction b with
  | nil => rfl
  | cons x xs ih => rw [SetBytes_cons, ih, bigEndianValue]

/-- The conversion `int(u)` keeps values below `2 ^ 63` and no others. -/
theorem int_eq_iff (u : Nat) : int (Uint64 u) = (u : Int) ↔ u < 2 ^ 63 := by
  unfold int Uint64
  simp only [Nat.mod_mod]
  constructor
  · intro h
    by_contra hc
    split at h <;> omega
  · intro h
    have : u % 2 ^ 64 = u := Nat.mod_eq_of_lt (by omega)
    rw [this, if_pos h]

/-- The loop passes over entries whose `kid` is a string other than the one
looked for. -/
theorem selectKey_skips (kid : GoString) (pre rest : List GoValue)
    (hpre : ∀ k ∈ pre, ∃ (m : GoMap) (id : GoString),
      k = .map m ∧ m.get (bytes "kid") = some (.string id) ∧ id ≠ kid) :
    selectKey kid (pre ++ rest) = selectKey kid rest := by
  induction pre with
  | nil => rfl
  | cons k ks ih =>
    obtain ⟨m, id, hk, hid, hne⟩ := hpre k (by simp)
    subst hk
    have ih' := ih (fun k hk => hpre k (by simp [hk]))
    simp [selectKey, assertMap, hid, assertString, hne, ih']

/-- The key built from an entry whose `kid` matches and whose `e` and `n`
decode. -/
theorem selectKey_match (kid : GoString) (m : GoMap) (rest : List GoValue)
    (e n decodedE decodedN : GoString)
    (hk : m.get (bytes "kid") = some (.string kid))
    (he : m.get (bytes "e") = some (.string e))
    (hn : m.get (bytes "n") = some (.string n))
    (hde : DecodeString e = .ok decodedE) (hdn : DecodeString n = .ok decodedN) :
    selectKey kid (.map m :: rest)
      = .ok { E := int (Uint64 (SetBytes decodedE)), N := some (SetBytes decodedN) } := by
  simp [selectKey, assertMap, hk, he, hn, assertString, hde, hdn]

/-- C9, counterexample. For the exponent bytes `80 00 00 00 00 00 00 00`, of
big-endian value `2 ^ 63`, the key gets `E = -2 ^ 63`; for the nine bytes
`01 00 00 00 00 00 00 00 00`, of value `2 ^ 64`, it gets `E = 0`. -/
theorem selectKey_exponent_wraps :
    DecodeString (bytes "gAAAAAAAAAA") = .ok [0x80, 0, 0, 0, 0, 0, 0, 0] ∧
    bigEndianValue [0x80, 0, 0, 0, 0, 0, 0, 0] = 2 ^ 63 ∧
    selectKey (bytes "k") [entryTopBit] = .ok { E := -2 ^ 63, N := some 65537 } ∧
    DecodeString (bytes "AQAAAAAAAAAA") = .ok [1, 0, 0, 0, 0, 0, 0, 0, 0] ∧
    bigEndianValue [1, 0, 0, 0, 0, 0, 0, 0, 0] = 2 ^ 64 ∧
    selectKey (bytes "k") [entryNineBytes] = .ok { E := 0, N := some 65537 } := by
  refine ⟨by rfl, by decide, by decide, by rfl, by decide, by decide⟩

/-- C9, amended. For every entry whose `kid` matches and whose `e` and `n` are
valid unpadded base64url, the key has modulus `N` equal to the unsigned
big-endian value of the decoded `n` bytes, of every length, and exponent `E`
equal to the low 64 bits of the unsigned big-endian value of the decoded `e`
bytes read as a 64-bit two's-complement integer: `E` lies between `-2 ^ 63`
and `2 ^ 63`, is congruent to the value modulo `2 ^ 64`, and equals it exactly
when the value is below `2 ^ 63`. -/
theorem selectKey_key_value (kid : GoString) (m : GoMap) (rest : List GoValue)
    (e n decodedE decodedN : GoString)
    (hk : m.get (bytes "kid") = some (.string kid))
    (he : m.get (bytes "e") = some (.string e))
    (hn : m.get (bytes "n") = some (.string n))
    (hde : DecodeString e = .ok decodedE) (hdn : DecodeString n = .ok decodedN) :
    ∃ key, selectKey kid (.map m :: rest) = .ok key ∧
      key.N = some (bigEndianValue decodedN) ∧
      -2 ^ 63 ≤ key.E ∧ key.E < 2 ^ 63 ∧
      (key.E - (bigEndianValue decodedE : Int)) % 2 ^ 64 = 0 ∧
      (key.E = (bigEndianValue decodedE : Int) ↔ bigEndianValue decodedE < 2 ^ 63) := by
  refine ⟨_, selectKey_match kid m rest e n decodedE decodedN hk he hn hde hdn, ?_, ?_, ?_, ?_, ?_⟩
  · simp only [SetBytes_eq_bigEndianValue]
  · simp only [int, Uint64]; split <;> omega
  · simp only [int, Uint64]; split <;> omega
  · simp only [SetBytes_eq_bigEndianValue, int, Uint64]; split <;> omega
  · simp only [SetBytes_eq_bigEndianValue]; exact int_eq_iff _

/-- C9 amended, at the entry with `e` and `n` both `AQAB`: the key is
`(65537, 65537)`. -/
theorem selectKey_key_value_witness :
    ∃ key, selectKey (bytes "k") (entryUsual :: []) = .ok key ∧
      key.N = some (bigEndianValue [1, 0, 1]) ∧
      -2 ^ 63 ≤ key.E ∧ key.E < 2 ^ 63 ∧
      (key.E - (bigEndianValue [1, 0, 1] : Int)) % 2 ^ 64 = 0 ∧
      (key.E = (bigEndianValue [1, 0, 1] : Int) ↔ bigEndianValue [1, 0, 1] < 2 ^ 63) :=
  selectKey_key_value (bytes "k") _ [] (bytes "AQAB") (bytes "AQAB") [1, 0, 1] [1, 0, 1]
    (by rfl) (by rfl) (by rfl) (by rfl) (by rfl)

/-- With a key set whose first entry of matching `kid` has decodable `e` and
`n`, after entries of other key ids, `verifySignature` runs the RSA check with
the key of that entry. -/
theorem verifySignature_first_matching_key (w : World) (j : JWT) (res : HttpResponse)
    (keyList m : GoMap) (kid e n decodedE decodedN : GoString) (pre rest : List GoValue)
    (hres : w.jwks = some res) (hdec : decodeMap? res.Body = .ok keyList)
    (hkid : j.Header.get (bytes "kid") = some (.string kid))
    (hkeys : keyList.get (bytes "keys") = some (.slice (pre ++ .map m :: rest)))
    (hpre : ∀ k ∈ pre, ∃ (m : GoMap) (id : GoString),
      k = .map m ∧ m.get (bytes "kid") = some (.string id) ∧ id ≠ kid)
    (hk : m.get (bytes "kid") = some (.string kid))
    (he : m.get (bytes "e") = some (.string e))
    (hn : m.get (bytes "n") = some (.string n))
    (hde : DecodeString e = .ok decodedE) (hdn : DecodeString n = .ok decodedN) :
    verifySignature w j =
      match w.VerifyPKCS1v15 { E := int (Uint64 (SetBytes decodedE)), N := some (SetBytes decodedN) }
          (w.SHA256 j.SignatureOrigin) j.Signature with
      | .panic p => .panic p
      | .error e => .error (.context "failed to verify signature" e)
      | .ok _ => .ok () := by
  have hsel := selectKey_skips kid pre (.map m :: rest) hpre
  rw [selectKey_match kid m rest e n decodedE decodedN hk he hn hde hdn] at hsel
  simp only [verifySignature, hres, hdec, hkid, hkeys, assertString, assertSlice, hsel]

/-- C8. When the key set holds no entry whose `kid` equals the header's, the
loop ends with the zero-valued public key and `verifySignature` runs the RSA
check against it: its result is the result of that check, a panic included;
there is no key-not-found error. -/
theorem verifySignature_no_matching_key (w : World) (j : JWT) (res : HttpResponse)
    (keyList : GoMap) (kid : GoString) (keys : List GoValue)
    (hres : w.jwks = some res) (hdec : decodeMap? res.Body = .ok keyList)
    (hkid : j.Header.get (bytes "kid") = some (.string kid))
    (hkeys : keyList.get (bytes "keys") = some (.slice keys))
    (hno : ∀ k ∈ keys, ∃ (m : GoMap) (id : GoString),
      k = .map m ∧ m.get (bytes "kid") = some (.string id) ∧ id ≠ kid) :
    selectKey kid keys = .ok zeroKey ∧
    verifySignature w j =
      match w.VerifyPKCS1v15 zeroKey (w.SHA256 j.SignatureOrigin) j.Signature with
      | .panic p => .panic p
      | .error e => .error (.context "failed to verify signature" e)
      | .ok _ => .ok () := by
  have hsel : selectKey kid keys = .ok zeroKey := by
    have := selectKey_skips kid keys [] hno
    simpa [selectKey] using this
  refine ⟨hsel, ?_⟩
  simp only [verifySignature, hres, hdec, hkid, hkeys, assertString, assertSlice, hsel]

/-- C8, at a token with key id `k`: with a key set holding only a key `other`
and an RSA check that dereferences the modulus, `verifySignature` panics;
with an empty key set and an RSA check that accepts, it accepts. -/
theorem verifySignature_no_matching_key_witness :
    verifySignature worldOtherKey tokenNoExp = .panic .nilDereference ∧
    verifySignature worldAccepting tokenNoExp = .ok () :=
  ⟨(verifySignature_no_matching_key worldOtherKey tokenNoExp _
      [(bytes "keys", .slice [.map [(bytes "kid", .string (bytes "other")),
        (bytes "e", .string (bytes "AQAB")), (bytes "n", .string (bytes "AQAB"))]])]
      (bytes "k") _ (by rfl) (by rfl) (by rfl) (by rfl)
      (by
        intro k hk
        simp only [List.mem_singleton] at hk
        exact ⟨_, bytes "other", hk, by rfl, by decide⟩)).2,
    (verifySignature_no_matching_key worldAccepting tokenNoExp _
      [(bytes "keys", .slice [])] (bytes "k") [] (by rfl) (by rfl) (by rfl) (by rfl)
      (by intro k hk; simp at hk)).2⟩

/-! ## The callbacks -/

/-- The method `Google.getUserInfo` returns; it does not panic. -/
theorem Google.getUserInfo_ne_panic (g : Google) (w : World) (t : GoString) (p : GoPanic) :
    g.getUserInfo w t ≠ .panic p := by
  intro hx
  unfold Google.getUserInfo at hx
  cases hw : w.userInfo with
  | none => simp [hw] at hx
  | some res => cases hd : decodeMap? res.Body <;> simp [hw, hd] at hx

/-- The method `Salesforce.GetUserInfo` returns; it does not panic. -/
theorem Salesforce.GetUserInfo_ne_panic (s : Salesforce) (w : World) (t : GoString)
    (p : GoPanic) : s.GetUserInfo w t ≠ .panic p := by
  intro hx
  unfold Salesforce.GetUserInfo at hx
  cases hw : w.userInfo with
  | none => simp [hw] at hx
  | some res => cases hd : decodeMap? res.Body <;> simp [hw, hd] at hx

/-- C10, counterexample. With a matching state, a successful token exchange
and a decodable ID token whose signature the RSA check rejects, so that
`Verify` returns an error, both callbacks issue the user-info request and
respond 200. -/
theorem Callback_continues_after_failed_verification :
    requestS.state = googleS.state ∧ requestS.state = salesforceS.state ∧
    (googleS.requestToken worldBadSignature requestS.code).isOk = true ∧
    (salesforceS.requestToken worldBadSignature requestS.code).isOk = true ∧
    DecodeJWT (bytes "eyJraWQiOiJrIn0.e30.AA") = .ok tokenBadSignature ∧
    Verify worldBadSignature tokenBadSignature googleS.clientId
        (bytes "https://accounts.google.com")
      = .error (.context "failed to verify signature"
          (.context "failed to verify signature" .verification)) ∧
    (googleS.Callback worldBadSignature requestS).calls = [.tokenPost, .jwksGet, .userInfoGet] ∧
    (googleS.Callback worldBadSignature requestS).outcome.status = some StatusOK ∧
    (salesforceS.Callback worldBadSignature requestS).calls = [.tokenPost, .userInfoGet] ∧
    (salesforceS.Callback worldBadSignature requestS).outcome.status = some StatusOK := by
  refine ⟨by decide, by decide, by decide, by decide, by rfl, by rfl, by decide, by decide,
    by decide, by decide⟩

/-- C10, amended. Whenever the state matches, the token exchange succeeds, the
`id_token` decodes and the `access_token` is a string: the Google callback,
when verification of the decoded token returns an error, goes on to the
user-info request and responds 200 when that request succeeds and 500 when it
fails, never 401; the Salesforce callback does not verify the token, issues
the user-info request and responds 200. -/
theorem Callback_after_verification (w : World) (r : Request) (token : GoMap)
    (idToken accessToken : GoString) (jwt : JWT)
    (hid : token.get (bytes "id_token") = some (.string idToken))
    (hjwt : DecodeJWT idToken = .ok jwt)
    (hat : token.get (bytes "access_token") = some (.string accessToken)) :
    (∀ (g : Google) (e : GoError), r.state = g.state → g.requestToken w r.code = .ok token →
      Verify w jwt g.clientId (bytes "https://accounts.google.com") = .error e →
      (g.Callback w r).calls = [.tokenPost, .jwksGet, .userInfoGet] ∧
      (g.Callback w r).outcome.status
        = some (if (g.getUserInfo w accessToken).isOk then StatusOK else StatusInternalServerError) ∧
      (g.Callback w r).outcome.status ≠ some StatusUnauthorized) ∧
    (∀ (s : Salesforce), r.state = s.state → s.requestToken w r.code = .ok token →
      (s.Callback w r).calls = [.tokenPost, .userInfoGet] ∧
      (s.Callback w r).outcome.status = some StatusOK) := by
  refine ⟨?_, ?_⟩
  · intro g e hst htok hver
    have h3 : (g.Callback w r).calls = [.tokenPost, .jwksGet, .userInfoGet] ∧
        (g.Callback w r).outcome.status
          = some (if (g.getUserInfo w accessToken).isOk then StatusOK
              else StatusInternalServerError) := by
      unfold Google.Callback
      simp only [hst, ne_eq, not_true_eq_false, if_false, htok, hid, assertString, hjwt, hver, hat]
      cases hx : g.getUserInfo w accessToken with
      | panic p => exact absurd hx (Google.getUserInfo_ne_panic g w accessToken p)
      | error e => simp [Outcome.status, Result.isOk]
      | ok d => simp [Outcome.status, Result.isOk]
    refine ⟨h3.1, h3.2, ?_⟩
    rw [h3.2]
    split <;> simp [StatusOK, StatusInternalServerError, StatusUnauthorized]
  · intro s hst htok
    unfold Salesforce.Callback
    simp only [hst, ne_eq, not_true_eq_false, if_false, htok, hid, assertString, hjwt, hat]
    cases hx : s.GetUserInfo w accessToken with
    | panic p => exact absurd hx (Salesforce.GetUserInfo_ne_panic s w accessToken p)
    | error e => simp [Outcome.status]
    | ok d => simp [Outcome.status]

/-- C10 amended, at the world whose RSA check rejects the signature: both
callbacks respond 200. -/
theorem Callback_after_verification_witness :
    (googleS.Callback worldBadSignature requestS).outcome.status
      = some (if (googleS.getUserInfo worldBadSignature (bytes "t")).isOk then StatusOK
          else StatusInternalServerError) ∧
    (salesforceS.Callback worldBadSignature requestS).outcome.status = some StatusOK :=
  have h := Callback_after_verification worldBadSignature requestS
    [(bytes "id_token", .string (bytes "eyJraWQiOiJrIn0.e30.AA")),
      (bytes "access_token", .string (bytes "t"))]
    (bytes "eyJraWQiOiJrIn0.e30.AA") (bytes "t") tokenBadSignature (by rfl) (by rfl) (by rfl)
  ⟨(h.1 googleS _ (by rfl) (by rfl) (by rfl)).2.1, (h.2 salesforceS (by rfl) (by rfl)).2⟩

end OpenID
